import Mathlib

/-!
# Verification of the sha_game competition tracker

A shallow embedding of the core of the `sha_game` repository
(Google-Sheets-backed team competition tracker) together with proofs and
refutations of the specification claims.

Embedded components:
* `scripts/parser.py`   — snapshot parser (`parse_commands_sheet`, `parse_users_sheet`,
  `is_completed`, `parse_name`);
* `scripts/sheets_updater.py` — grid coordinate resolvers (`get_command_task_cell`,
  `get_user_task_cell`) and the writer's cell text;
* `scripts/import_to_db.py` — the reconciler (`import_commands_to_db`);
* `database/models.py`  — the persisted rows (note: the `User` model declares **no**
  `max_reached_at` column; reading that attribute on a freshly loaded instance raises
  `AttributeError`, which the embedding models explicitly);
* `api/main.py`         — `get_leaderboard` and `get_top_users`;
* `bot/handlers/mandarin.py` — the personal-task toggle (`callback_toggle_user_task`).

Python specifics that matter here are modelled explicitly: truthiness of strings,
`list.sort` / `sorted` stability (as insertion sort with a boolean comparator),
negative list indexing, list slicing `l[:limit]`, and the decorate-then-sort behaviour
of `sorted(key=...)` (keys are computed for every element before sorting).
-/

namespace ShaGame

/-! ## Part A — definitions -/

/-! ### Python string helpers -/

/-- The characters Python `str.strip()` / `str.split()` treat as whitespace
(restricted to the ASCII range, which covers every string this repository
manipulates). -/
def pySpaceChar (c : Char) : Bool :=
  c = ' ' ∨ c = '\t' ∨ c = '\n' ∨ c = '\r' ∨ c = '\x0b' ∨ c = '\x0c'

/-- Python `str.strip()` on a character list. -/
def pyStripCore (cs : List Char) : List Char :=
  ((cs.dropWhile pySpaceChar).reverse.dropWhile pySpaceChar).reverse

/-- Python `str.strip()`. -/
def pyStrip (s : String) : String := ⟨pyStripCore s.data⟩

/-- Lower-casing of a single character as Python `str.lower()` does, restricted to the
ASCII and Cyrillic ranges that occur in this repository. -/
def pyLowerChar (c : Char) : Char :=
  if 'A' ≤ c ∧ c ≤ 'Z' then Char.ofNat (c.toNat + 32)
  else if 'А' ≤ c ∧ c ≤ 'Я' then Char.ofNat (c.toNat + 32)
  else if c = 'Ё' then 'ё'
  else c

/-- Python `str.lower()` (same restriction as `pyLowerChar`). -/
def pyLower (s : String) : String := ⟨s.data.map pyLowerChar⟩

/-- `needle` occurs as a contiguous substring of `hay` (Python `needle in hay`). -/
def containsSub (needle : List Char) : List Char → Bool
  | [] => needle.isEmpty
  | c :: rest => needle.isPrefixOf (c :: rest) || containsSub needle rest

/-- Python `needle in hay` on strings. -/
def pyContains (needle hay : String) : Bool := containsSub needle.data hay.data

/-- Split a character list into maximal whitespace-free words (Python `s.split()`). -/
def splitWs (cs : List Char) : List (List Char) :=
  (cs.foldr
    (fun c acc =>
      if pySpaceChar c then [] :: acc
      else match acc with
        | [] => [[c]]
        | w :: ws => (c :: w) :: ws)
    []).filter (fun w => ¬ w.isEmpty)

/-- Python `s.split()`: split on whitespace runs, dropping empty fragments. -/
def pySplit (s : String) : List String := (splitWs s.data).map (fun w => ⟨w⟩)

/-- Python list slicing `l[:limit]` for an `int` limit. -/
def pyTake (limit : Int) (l : List α) : List α :=
  if 0 ≤ limit then l.take limit.toNat else l.take ((l.length : Int) + limit).toNat

/-- Python list indexing `l[i]` for an `int` index: negative indices count from the
end, anything else out of range raises `IndexError`. -/
def pyListGet (l : List α) (i : Int) : Except String α :=
  if 0 ≤ i then
    if h : i.toNat < l.length then .ok (l.get ⟨i.toNat, h⟩) else .error "IndexError"
  else
    let j : Int := (l.length : Int) + i
    if h2 : 0 ≤ j ∧ j.toNat < l.length then .ok (l.get ⟨j.toNat, h2.2⟩)
    else .error "IndexError"

instance [DecidableEq ε] [DecidableEq α] : DecidableEq (Except ε α) := fun a b =>
  match a, b with
  | .ok x, .ok y =>
      if h : x = y then .isTrue (by rw [h])
      else .isFalse (by intro hc; cases hc; exact h rfl)
  | .error e, .error f =>
      if h : e = f then .isTrue (by rw [h])
      else .isFalse (by intro hc; cases hc; exact h rfl)
  | .ok _, .error _ => .isFalse (by intro hc; cases hc)
  | .error _, .ok _ => .isFalse (by intro hc; cases hc)

/-! ### Stable sorting (Python `sorted` / `list.sort`)

CPython's sort is stable.  A stable sort with a total, transitive boolean comparator
is unique, so insertion sort with the same comparator computes exactly what Python
computes. -/

/-- Insert `a` in front of the first element `b` with `le a b`. -/
def insertB (le : α → α → Bool) (a : α) : List α → List α
  | [] => [a]
  | b :: l => if le a b then a :: b :: l else b :: insertB le a l

/-- Stable insertion sort with boolean comparator `le` (Python `sorted`). -/
def sortB (le : α → α → Bool) : List α → List α
  | [] => []
  | a :: l => insertB le a (sortB le l)

/-- The relation a stable sort guarantees pairwise on its output, when the input was
pairwise `Q`: an earlier output element is either strictly smaller, or tied and
already `Q`-before in the input. -/
def stableRel (le : α → α → Bool) (Q : α → α → Prop) (x y : α) : Prop :=
  (le x y = true ∧ ¬ le y x = true) ∨ (le x y = true ∧ le y x = true ∧ Q x y)

/-! ### `Except`-valued list traversal (Python loops that may raise) -/

/-- Map `f` over a list, propagating the first raised error (models a Python loop or
the key pre-computation of `sorted(key=...)`). -/
def mapExcept (f : α → Except ε β) : List α → Except ε (List β)
  | [] => .ok []
  | a :: l => do
      let b ← f a
      let bs ← mapExcept f l
      .ok (b :: bs)

/-- Python `enumerate(l, n)`: pair each element with its index starting at `n`. -/
def enumFrom (n : Nat) : List α → List (Nat × α)
  | [] => []
  | a :: l => (n, a) :: enumFrom (n + 1) l

/-- 1-based rank assignment (`for i, item in enumerate(l): rank = i + 1`). -/
def enumerate1 (l : List α) : List (Nat × α) := enumFrom 1 l

/-! ### Parsed snapshot records (`scripts/parser.py` dataclasses) -/

/-- `parser.TaskData`. -/
structure TaskData where
  number : Int
  description : String
  is_completed : Bool
  deriving DecidableEq

/-- `parser.UserData`. -/
structure UserData where
  last_name : String
  first_name : String
  command_number : Int
  sheet_index : Int
  tasks : List TaskData
  deriving DecidableEq

/-- `parser.CommandData`. -/
structure CommandData where
  number : Int
  name : String
  tasks : List TaskData
  users : List UserData
  deriving DecidableEq

/-- `parser.is_completed`: a status value counts as completed iff it is truthy and its
lower-cased text contains one of the two "done" markers. -/
def is_completed (value : Option String) : Bool :=
  match value with
  | none => false
  | some s =>
      if s = "" then false
      else pyContains "сделано" (pyLower s) || pyContains "выполнено" (pyLower s)

/-- `parser.parse_name`: split a full name into (last name, first name). -/
def parse_name (full_name : String) : String × String :=
  match pySplit (pyStrip full_name) with
  | p0 :: p1 :: _ => (p0, p1)
  | [p0] => (p0, "")
  | [] => ("", "")

/-- The guarded cell read the parser uses everywhere:
`grid[row][col] if row < len(grid) and col < len(grid[row]) else default`. -/
def cellOr (all_values : List (List String)) (row col : Nat) (default : String) : String :=
  if row < all_values.length ∧ col < (all_values.getD row []).length
  then (all_values.getD row []).getD col ""
  else default

/-- `parser.parse_commands_sheet`'s fixed team label positions `(col, row, number)`. -/
def command_positions : List (Nat × Nat × Int) :=
  [(0, 0, 1), (3, 0, 2), (7, 0, 3), (11, 0, 4), (15, 0, 5),
   (0, 8, 6), (3, 8, 7), (7, 8, 8), (11, 8, 9), (15, 8, 10)]

/-- `parser.parse_users_sheet`'s fixed member label positions `(col, row)`. -/
def user_positions : List (Nat × Nat) :=
  [(0, 0), (3, 0), (6, 0), (9, 0),
   (0, 11), (3, 11), (6, 11), (9, 11),
   (0, 22), (3, 22), (6, 22), (9, 22)]

/-- One parsed team task of `parse_commands_sheet` (loop body for task slot `i`). -/
def parseCommandTask (all_values : List (List String)) (col row i : Nat) : TaskData :=
  let task_row := row + 1 + i
  let description := cellOr all_values task_row col ""
  let status_col := col + 1
  let status := cellOr all_values task_row status_col ""
  let completed := is_completed (some status)
  { number := (i : Int) + 1,
    description := if description ≠ "" then pyStrip description
                   else "Командное задание " ++ toString (i + 1),
    is_completed := completed }

/-- `parser.parse_commands_sheet`: the ten teams of the fixed layout, in table order
(command numbers 1..10, matching the insertion order of the source's dict). -/
def parse_commands_sheet (all_values : List (List String)) : List CommandData :=
  command_positions.map (fun cr =>
    let col := cr.1
    let row := cr.2.1
    let cmd_num := cr.2.2
    let name := cellOr all_values row col (toString cmd_num ++ " команда")
    let tasks := (List.range 7).map (parseCommandTask all_values col row)
    { number := cmd_num,
      name := if name ≠ "" then pyStrip name else toString cmd_num ++ " команда",
      tasks := tasks,
      users := [] })

/-- One parsed personal task of `parse_users_sheet` (loop body for task slot `i`). -/
def parseUserTask (all_values : List (List String)) (col row i : Nat) : TaskData :=
  let task_row := row + 1 + i
  let description := cellOr all_values task_row col ""
  let status_col := col + 1
  let status := cellOr all_values task_row status_col ""
  let completed := is_completed (some status)
  { number := (i : Int) + 1,
    description := if description ≠ "" then pyStrip description
                   else "Индивидуальное задание " ++ toString (i + 1),
    is_completed := completed }

/-- `parser.parse_users_sheet`: parse one team's member sheet; slots whose label cell
is blank (falsy or stripping to empty) are skipped. -/
def parse_users_sheet (all_values : List (List String)) (command_number : Int) :
    List UserData :=
  (enumFrom 0 user_positions).filterMap (fun iu =>
    let user_index := iu.1
    let col := iu.2.1
    let row := iu.2.2
    let full_name := cellOr all_values row col ""
    if full_name = "" ∨ pyStrip full_name = "" then none
    else
      let names := parse_name full_name
      let tasks := (List.range 10).map (parseUserTask all_values col row)
      some { last_name := names.1, first_name := names.2,
             command_number := command_number,
             sheet_index := (user_index : Int),
             tasks := tasks })

/-! ### Grid coordinate resolvers (`scripts/sheets_updater.py`) -/

/-- `sheets_updater.COMMAND_POSITIONS`: the dict `{number: (col, row)}` as an
association list in key order. -/
def COMMAND_POSITIONS : List (Int × Int × Int) :=
  [(1, 0, 0), (2, 3, 0), (3, 7, 0), (4, 11, 0), (5, 15, 0),
   (6, 0, 8), (7, 3, 8), (8, 7, 8), (9, 11, 8), (10, 15, 8)]

/-- Dict lookup `COMMAND_POSITIONS[n]` (with `n in COMMAND_POSITIONS` as `isSome`). -/
def commandPositionsLookup (n : Int) : Option (Int × Int) :=
  (COMMAND_POSITIONS.find? (fun e => e.1 = n)).map (fun e => e.2)

/-- `sheets_updater.USER_POSITIONS`: member slot index → label `(col, row)`. -/
def USER_POSITIONS : List (Int × Int) :=
  [(0, 0), (3, 0), (6, 0), (9, 0),
   (0, 11), (3, 11), (6, 11), (9, 11),
   (0, 22), (3, 22), (6, 22), (9, 22)]

/-- `sheets_updater.get_command_task_cell`: status cell of a team task, 1-indexed
`(row, col)`; raises `ValueError` when the team number is not a dict key. -/
def get_command_task_cell (command_number task_number : Int) :
    Except String (Int × Int) :=
  match commandPositionsLookup command_number with
  | none => .error "ValueError"
  | some colrow =>
      let task_row := colrow.2 + task_number
      let status_col := colrow.1 + 1
      .ok (task_row + 1, status_col + 1)

/-- `sheets_updater.get_user_task_cell`: status cell of a personal task, 1-indexed
`(row, col)`; raises `ValueError` only when `user_index >= len(USER_POSITIONS)` —
negative indices fall through to Python list indexing. -/
def get_user_task_cell (user_index task_number : Int) : Except String (Int × Int) :=
  if user_index ≥ (USER_POSITIONS.length : Int) then .error "ValueError"
  else do
    let colrow ← pyListGet USER_POSITIONS user_index
    let task_row := colrow.2 + task_number
    let status_col := colrow.1 + 1
    .ok (task_row + 1, status_col + 1)

/-- The text `update_command_task_status` / `update_user_task_status` write into the
status cell: the fixed "done" marker when completed, the empty string otherwise. -/
def writerStatusText (completed : Bool) : String := if completed then "Сделано" else ""

/-! ### Persisted rows (`database/models.py`)

`User` intentionally has **no** `max_reached_at` field: the model in
`database/models.py` does not declare such a column, although
`bot/handlers/mandarin.py` and `api/main.py` read and write that attribute. -/

/-- `models.User`, mapped columns only. -/
structure UserRow where
  id : Nat
  first_name : String
  last_name : String
  score : Int
  sheet_index : Int
  command_id : Nat
  deriving DecidableEq

/-- `models.Command`, mapped columns only. -/
structure CommandRow where
  id : Nat
  number : Int
  name : Option String
  score : Int
  deriving DecidableEq

/-- `models.CommandTask`. -/
structure CommandTaskRow where
  id : Nat
  command_id : Nat
  task_number : Int
  description : String
  is_completed : Bool
  deriving DecidableEq

/-- `models.UserTask`. -/
structure UserTaskRow where
  id : Nat
  user_id : Nat
  task_number : Int
  description : String
  is_completed : Bool
  deriving DecidableEq

/-- The relational store: one list per table (rows in insertion order) plus the
autoincrement counters. -/
structure DB where
  commands : List CommandRow
  users : List UserRow
  command_tasks : List CommandTaskRow
  user_tasks : List UserTaskRow
  next_command_id : Nat
  next_user_id : Nat
  next_command_task_id : Nat
  next_user_task_id : Nat
  deriving DecidableEq

/-- The `stats` dict of `import_to_db.import_commands_to_db`. -/
structure Stats where
  commands_created : Nat
  commands_updated : Nat
  users_created : Nat
  users_updated : Nat
  command_tasks_created : Nat
  user_tasks_created : Nat
  deriving DecidableEq

/-- The all-zero initial statistics. -/
def stats0 : Stats := ⟨0, 0, 0, 0, 0, 0⟩

/-- SQLAlchemy `scalar_one_or_none()`: `None` on no match, the row on a unique match,
`MultipleResultsFound` otherwise. -/
def scalarOneOrNone : List α → Except String (Option α)
  | [] => .ok none
  | [x] => .ok (some x)
  | _ :: _ :: _ => .error "MultipleResultsFound"

/-- `select(Command).where(Command.number == n)` + `scalar_one_or_none()`. -/
def findCommand (db : DB) (n : Int) : Except String (Option CommandRow) :=
  scalarOneOrNone (db.commands.filter (fun c => c.number = n))

/-- `select(User).where(command_id == cid, first_name == fn, last_name == ln)`. -/
def findUser (db : DB) (cid : Nat) (fn ln : String) : Except String (Option UserRow) :=
  scalarOneOrNone (db.users.filter
    (fun u => u.command_id = cid ∧ u.first_name = fn ∧ u.last_name = ln))

/-- `select(CommandTask).where(command_id == cid, task_number == tn)`. -/
def findCommandTask (db : DB) (cid : Nat) (tn : Int) :
    Except String (Option CommandTaskRow) :=
  scalarOneOrNone (db.command_tasks.filter
    (fun t => t.command_id = cid ∧ t.task_number = tn))

/-- `select(UserTask).where(user_id == uid, task_number == tn)`. -/
def findUserTask (db : DB) (uid : Nat) (tn : Int) :
    Except String (Option UserTaskRow) :=
  scalarOneOrNone (db.user_tasks.filter
    (fun t => t.user_id = uid ∧ t.task_number = tn))

/-- `Command(number=…, name=…, score=0)` + `session.add` + `flush`. -/
def createCommand (db : DB) (c : CommandData) : CommandRow × DB :=
  let row : CommandRow :=
    { id := db.next_command_id, number := c.number, name := some c.name, score := 0 }
  (row, { db with commands := db.commands ++ [row],
                  next_command_id := db.next_command_id + 1 })

/-- `command.name = cmd_data.name` on the unique row matching the number. -/
def updateCommandName (db : DB) (n : Int) (newName : String) : DB :=
  { db with commands := db.commands.map (fun c =>
      if c.number = n then { c with name := some newName } else c) }

/-- `User(first_name=…, last_name=…, command_id=…, sheet_index=…, score=0)`. -/
def createUser (db : DB) (cid : Nat) (u : UserData) : UserRow × DB :=
  let row : UserRow :=
    { id := db.next_user_id, first_name := u.first_name, last_name := u.last_name,
      score := 0, sheet_index := u.sheet_index, command_id := cid }
  (row, { db with users := db.users ++ [row], next_user_id := db.next_user_id + 1 })

/-- `user.sheet_index = user_data.sheet_index` on the unique row matching the key. -/
def updateUserSheetIndex (db : DB) (cid : Nat) (fn ln : String) (si : Int) : DB :=
  { db with users := db.users.map (fun u =>
      if u.command_id = cid ∧ u.first_name = fn ∧ u.last_name = ln
      then { u with sheet_index := si } else u) }

/-- `CommandTask(command_id=…, task_number=…, description=…, is_completed=…)`. -/
def createCommandTask (db : DB) (cid : Nat) (t : TaskData) : DB :=
  let row : CommandTaskRow :=
    { id := db.next_command_task_id, command_id := cid, task_number := t.number,
      description := t.description, is_completed := t.is_completed }
  { db with command_tasks := db.command_tasks ++ [row],
            next_command_task_id := db.next_command_task_id + 1 }

/-- `task.description = …; task.is_completed = …` on the unique matching task row. -/
def updateCommandTask (db : DB) (cid : Nat) (t : TaskData) : DB :=
  { db with command_tasks := db.command_tasks.map (fun ct =>
      if ct.command_id = cid ∧ ct.task_number = t.number
      then { ct with description := t.description, is_completed := t.is_completed }
      else ct) }

/-- `UserTask(user_id=…, task_number=…, description=…, is_completed=…)`. -/
def createUserTask (db : DB) (uid : Nat) (t : TaskData) : DB :=
  let row : UserTaskRow :=
    { id := db.next_user_task_id, user_id := uid, task_number := t.number,
      description := t.description, is_completed := t.is_completed }
  { db with user_tasks := db.user_tasks ++ [row],
            next_user_task_id := db.next_user_task_id + 1 }

/-- `task.description = …; task.is_completed = …` on the unique matching task row. -/
def updateUserTask (db : DB) (uid : Nat) (t : TaskData) : DB :=
  { db with user_tasks := db.user_tasks.map (fun ut =>
      if ut.user_id = uid ∧ ut.task_number = t.number
      then { ut with description := t.description, is_completed := t.is_completed }
      else ut) }

/-- Loop body over `cmd_data.tasks` in `import_commands_to_db`. -/
def processCommandTask (cid : Nat) (st : DB × Stats) (t : TaskData) :
    Except String (DB × Stats) := do
  match ← findCommandTask st.1 cid t.number with
  | none =>
      .ok (createCommandTask st.1 cid t,
           { st.2 with command_tasks_created := st.2.command_tasks_created + 1 })
  | some _ => .ok (updateCommandTask st.1 cid t, st.2)

/-- Loop body over `user_data.tasks` in `import_commands_to_db`. -/
def processUserTask (uid : Nat) (st : DB × Stats) (t : TaskData) :
    Except String (DB × Stats) := do
  match ← findUserTask st.1 uid t.number with
  | none =>
      .ok (createUserTask st.1 uid t,
           { st.2 with user_tasks_created := st.2.user_tasks_created + 1 })
  | some _ => .ok (updateUserTask st.1 uid t, st.2)

/-- Loop body over `cmd_data.users` in `import_commands_to_db`. -/
def processUser (cid : Nat) (st : DB × Stats) (u : UserData) :
    Except String (DB × Stats) := do
  match ← findUser st.1 cid u.first_name u.last_name with
  | none =>
      let rdb := createUser st.1 cid u
      u.tasks.foldlM (processUserTask rdb.1.id)
        (rdb.2, { st.2 with users_created := st.2.users_created + 1 })
  | some usr =>
      u.tasks.foldlM (processUserTask usr.id)
        (updateUserSheetIndex st.1 cid u.first_name u.last_name u.sheet_index,
         { st.2 with users_updated := st.2.users_updated + 1 })

/-- Loop body over `parsed_data` in `import_commands_to_db`. -/
def processCommand (st : DB × Stats) (c : CommandData) : Except String (DB × Stats) := do
  let found ← findCommand st.1 c.number
  let cst ←
    match found with
    | none =>
        let rdb := createCommand st.1 c
        Except.ok (rdb.1.id,
          (rdb.2, { st.2 with commands_created := st.2.commands_created + 1 }))
    | some cmd =>
        Except.ok (cmd.id,
          (updateCommandName st.1 c.number c.name,
           { st.2 with commands_updated := st.2.commands_updated + 1 }))
  let st2 ← c.tasks.foldlM (processCommandTask cst.1) cst.2
  c.users.foldlM (processUser cst.1) st2

/-- `import_to_db.import_commands_to_db`: merge one parsed snapshot into the store. -/
def import_commands_to_db (parsed : List CommandData) (db : DB) :
    Except String (Stats × DB) := do
  let final ← parsed.foldlM processCommand (db, stats0)
  .ok (final.2, final.1)

/-! ### Observations used by the reconciler proofs -/

/-- The id of the unique command row with this number, if any. -/
def findCommandId (db : DB) (n : Int) : Except String (Option Nat) :=
  (findCommand db n).map (Option.map (fun r => r.id))

/-- The id of the unique user row with this natural key, if any. -/
def findUserId (db : DB) (cid : Nat) (fn ln : String) : Except String (Option Nat) :=
  (findUser db cid fn ln).map (Option.map (fun r => r.id))

/-- The id of the unique team-task row with this key, if any. -/
def findCommandTaskId (db : DB) (cid : Nat) (tn : Int) : Except String (Option Nat) :=
  (findCommandTask db cid tn).map (Option.map (fun r => r.id))

/-- The id of the unique personal-task row with this key, if any. -/
def findUserTaskId (db : DB) (uid : Nat) (tn : Int) : Except String (Option Nat) :=
  (findUserTask db uid tn).map (Option.map (fun r => r.id))

/-- Every natural key resolved to a row id before keeps resolving to the same id. -/
def Mono (db db' : DB) : Prop :=
  (∀ n i, findCommandId db n = .ok (some i) → findCommandId db' n = .ok (some i)) ∧
  (∀ cid fn ln i, findUserId db cid fn ln = .ok (some i) →
      findUserId db' cid fn ln = .ok (some i)) ∧
  (∀ cid tn i, findCommandTaskId db cid tn = .ok (some i) →
      findCommandTaskId db' cid tn = .ok (some i)) ∧
  (∀ uid tn i, findUserTaskId db uid tn = .ok (some i) →
      findUserTaskId db' uid tn = .ok (some i))

/-- The two stores answer every id-level key lookup identically (holds across pure
field updates, which touch neither keys, ids, nor row order). -/
def FindEq (db db' : DB) : Prop :=
  (∀ n, findCommandId db' n = findCommandId db n) ∧
  (∀ cid fn ln, findUserId db' cid fn ln = findUserId db cid fn ln) ∧
  (∀ cid tn, findCommandTaskId db' cid tn = findCommandTaskId db cid tn) ∧
  (∀ uid tn, findUserTaskId db' uid tn = findUserTaskId db uid tn)

/-- A parsed member and all its tasks are present in the store. -/
def satUser (db : DB) (cid : Nat) (u : UserData) : Prop :=
  ∃ uid, findUserId db cid u.first_name u.last_name = .ok (some uid) ∧
    ∀ t ∈ u.tasks, ∃ i, findUserTaskId db uid t.number = .ok (some i)

/-- A parsed team, its tasks, its members and their tasks are present in the store. -/
def satCommand (db : DB) (c : CommandData) : Prop :=
  ∃ cid, findCommandId db c.number = .ok (some cid) ∧
    (∀ t ∈ c.tasks, ∃ i, findCommandTaskId db cid t.number = .ok (some i)) ∧
    (∀ u ∈ c.users, satUser db cid u)

/-- Every record of the snapshot is present in the store. -/
def saturated (db : DB) (parsed : List CommandData) : Prop :=
  ∀ c ∈ parsed, satCommand db c

/-- The `(id, score)` columns of the team and member tables, in row order. -/
def scoreSkeleton (db : DB) : List (Nat × Int) × List (Nat × Int) :=
  (db.commands.map (fun c => (c.id, c.score)), db.users.map (fun u => (u.id, u.score)))

/-- The four `*_created` counters of the statistics. -/
def createdCounts (s : Stats) : Nat × Nat × Nat × Nat :=
  (s.commands_created, s.users_created, s.command_tasks_created, s.user_tasks_created)

/-- Frame of an existing team row: everything except `name` is untouched. -/
def commandFrame (c c' : CommandRow) : Prop :=
  c'.id = c.id ∧ c'.number = c.number ∧ c'.score = c.score

/-- Frame of an existing member row: everything except `sheet_index` is untouched. -/
def userFrame (u u' : UserRow) : Prop :=
  u'.id = u.id ∧ u'.first_name = u.first_name ∧ u'.last_name = u.last_name ∧
  u'.score = u.score ∧ u'.command_id = u.command_id

/-- Frame of an existing team-task row: id, owner and number are untouched (only
`description` and `is_completed` may be overwritten). -/
def ctaskFrame (t t' : CommandTaskRow) : Prop :=
  t'.id = t.id ∧ t'.command_id = t.command_id ∧ t'.task_number = t.task_number

/-- Frame of an existing personal-task row. -/
def utaskFrame (t t' : UserTaskRow) : Prop :=
  t'.id = t.id ∧ t'.user_id = t.user_id ∧ t'.task_number = t.task_number

/-- A table evolves by per-row `R`-preserving edits of the original rows (which keep
their positions) plus appended new rows satisfying `newOk`. -/
def tableFrame (R : α → α → Prop) (newOk : α → Prop) (xs ys : List α) : Prop :=
  List.Forall₂ R xs (ys.take xs.length) ∧ ∀ y ∈ ys.drop xs.length, newOk y

/-- The reconciler's frame over the whole store: scores of existing rows untouched,
new teams and members created with score 0, task rows keep their identity. -/
def dbFrame (db db' : DB) : Prop :=
  tableFrame commandFrame (fun c => c.score = 0) db.commands db'.commands ∧
  tableFrame userFrame (fun u => u.score = 0) db.users db'.users ∧
  tableFrame ctaskFrame (fun _ => True) db.command_tasks db'.command_tasks ∧
  tableFrame utaskFrame (fun _ => True) db.user_tasks db'.user_tasks

/-! ### Loaded ORM objects, the toggle handler and the ranking endpoints -/

/-- A loaded `User` object: the mapped columns plus the *dynamic* `max_reached_at`
attribute, which the model does not declare.  `none` means the attribute is absent
(reading it raises `AttributeError`); `some v` means it was assigned `v`, with
`v = none` for Python `None` and `v = some ts` for a datetime of timestamp `ts`. -/
structure PyUser where
  row : UserRow
  max_reached_at : Option (Option Int)
  deriving DecidableEq

/-- Reading `user.max_reached_at`: `AttributeError` when never assigned. -/
def getattrMaxReachedAt (u : PyUser) : Except String (Option Int) :=
  match u.max_reached_at with
  | none => .error "AttributeError"
  | some v => .ok v

/-- `mandarin.MAX_PERSONAL_SCORE`. -/
def MAX_PERSONAL_SCORE : Int := 10

/-- A `User` freshly loaded from the store: only mapped columns, so the dynamic
`max_reached_at` attribute is absent. -/
def loadUser (r : UserRow) : PyUser := { row := r, max_reached_at := none }

/-- `mandarin.callback_toggle_user_task`, the task/score/timestamp mutation: flip the
task's flag; on completion add one point and, exactly at the maximum with the
timestamp unset, stamp `now`; on un-completion subtract one point and clear the
timestamp when below the maximum.  Returns the new flag and user state. -/
def callback_toggle_user_task (task_is_completed : Bool) (u : PyUser) (now : Int) :
    Except String (Bool × PyUser) :=
  let flipped := !task_is_completed
  if flipped then
    let u1 : PyUser := { u with row := { u.row with score := u.row.score + 1 } }
    if u1.row.score = MAX_PERSONAL_SCORE then do
      let m ← getattrMaxReachedAt u1
      if m = none then Except.ok (flipped, { u1 with max_reached_at := some (some now) })
      else Except.ok (flipped, u1)
    else Except.ok (flipped, u1)
  else
    let u1 : PyUser := { u with row := { u.row with score := u.row.score - 1 } }
    if u1.row.score < MAX_PERSONAL_SCORE then
      Except.ok (flipped, { u1 with max_reached_at := some none })
    else Except.ok (flipped, u1)

/-- `api.main.MAX_PERSONAL`. -/
def MAX_PERSONAL : Int := 10

/-- A user as loaded by `get_top_users`: the row, its `command` relationship, and the
(absent) dynamic `max_reached_at` attribute. -/
structure LoadedUser where
  user : UserRow
  command : Option CommandRow
  max_reached_at : Option (Option Int)
  deriving DecidableEq

/-- One user row as `selectinload(User.command)` materialises it: the row, its
parent command found by id, and no dynamic timestamp attribute. -/
def loadAPIUser (db : DB) (u : UserRow) : LoadedUser :=
  { user := u, command := db.commands.find? (fun c => c.id = u.command_id),
    max_reached_at := none }

/-- `select(User).options(selectinload(User.command))`: every user row with its
parent command; the dynamic timestamp attribute is absent on a fresh load. -/
def loadedUsers (db : DB) : List LoadedUser := db.users.map (loadAPIUser db)

/-- Reading `user.max_reached_at` on a loaded API user. -/
def getattrMaxReachedAtL (u : LoadedUser) : Except String (Option Int) :=
  match u.max_reached_at with
  | none => .error "AttributeError"
  | some v => .ok v

/-- `user.command` (raises if the relationship found no parent row). -/
def getattrCommand (u : LoadedUser) : Except String CommandRow :=
  match u.command with
  | none => .error "AttributeError"
  | some c => .ok c

/-- The third sort priority: a timestamp, the neutral `0`, or `float('inf')`. -/
inductive P3 where
  | fin (t : Int)
  | inf
  deriving DecidableEq

/-- Python `<=` on third-priority values. -/
def p3Le : P3 → P3 → Bool
  | _, .inf => true
  | .inf, .fin _ => false
  | .fin a, .fin b => decide (a ≤ b)

/-- Python `<=` on the 3-tuple sort keys (lexicographic). -/
def keyLe (k1 k2 : Int × Int × P3) : Bool :=
  decide (k1.1 < k2.1) ||
    (decide (k1.1 = k2.1) &&
      (decide (k1.2.1 < k2.2.1) ||
        (decide (k1.2.1 = k2.2.1) && p3Le k1.2.2 k2.2.2)))

/-- `api.main.get_top_users.sort_key`. -/
def sort_key (u : LoadedUser) : Except String (Int × Int × P3) := do
  let personal := u.user.score
  let command ← getattrCommand u
  let team_score := command.score
  let priority1 := -personal
  let priority2 := if personal = MAX_PERSONAL then -team_score else 0
  let priority3 ←
    if personal = MAX_PERSONAL then do
      let m ← getattrMaxReachedAtL u
      match m with
      | some ts => Except.ok (P3.fin ts)
      | none => Except.ok P3.inf
    else Except.ok (P3.fin 0)
  Except.ok (priority1, priority2, priority3)

/-- `api.main.get_top_users`: load all users, sort by `sort_key` (CPython first
computes the key of every element, so a raised `AttributeError` aborts the whole
call), truncate to `limit` and attach 1-based ranks. -/
def get_top_users (db : DB) (limit : Int) :
    Except String (List (Nat × LoadedUser)) := do
  let users := loadedUsers db
  let decorated ← mapExcept (fun u => (sort_key u).map (fun k => (k, u))) users
  let sorted_users := (sortB (fun a b => keyLe a.1 b.1) decorated).map (fun p => p.2)
  Except.ok (enumerate1 (pyTake limit sorted_users))

/-- One leaderboard item of `api.main.get_leaderboard`. -/
structure LBEntry where
  id : Nat
  number : Int
  name : String
  team_score : Int
  users_score : Int
  total_score : Int
  members_count : Nat
  deriving DecidableEq

/-- `selectinload(Command.users)`: the member rows of one team. -/
def commandUsers (db : DB) (cid : Nat) : List UserRow :=
  db.users.filter (fun u => u.command_id = cid)

/-- Python `x or fallback` on an optional string column. -/
def pyOrName (name : Option String) (fallback : String) : String :=
  match name with
  | none => fallback
  | some s => if s = "" then fallback else s

/-- The dict built for one team in `get_leaderboard`'s first loop. -/
def lbEntry (db : DB) (cmd : CommandRow) : LBEntry :=
  let users_score := ((commandUsers db cmd.id).map (fun u => u.score)).sum
  { id := cmd.id, number := cmd.number,
    name := pyOrName cmd.name ("Команда " ++ toString cmd.number),
    team_score := cmd.score, users_score := users_score,
    total_score := cmd.score + users_score,
    members_count := (commandUsers db cmd.id).length }

/-- `api.main.get_leaderboard`: teams in ascending number order, their totals, a
stable descending sort by total, then 1-based ranks. -/
def get_leaderboard (db : DB) : List (Nat × LBEntry) :=
  let commands := sortB (fun a b => decide (a.number ≤ b.number)) db.commands
  let leaderboard := commands.map (lbEntry db)
  let sorted := sortB (fun a b => decide (b.total_score ≤ a.total_score)) leaderboard
  enumerate1 sorted

/-! ## Part B — theorems -/

theorem pyTake_sublist (limit : Int) (l : List α) : (pyTake limit l).Sublist l := by
  unfold pyTake
  split <;> exact List.take_sublist _ _

theorem insertB_perm (le : α → α → Bool) (a : α) (l : List α) :
    (insertB le a l).Perm (a :: l) := by
  induction l with
  | nil => exact List.Perm.refl _
  | cons b t ih =>
    by_cases h : le a b = true
    · simp [insertB, h]
    · simp only [insertB, h, if_false, Bool.false_eq_true]
      exact (List.Perm.cons b ih).trans (List.Perm.swap a b t)

theorem sortB_perm (le : α → α → Bool) (l : List α) : (sortB le l).Perm l := by
  induction l with
  | nil => exact List.Perm.refl _
  | cons a t ih =>
    exact (insertB_perm le a (sortB le t)).trans (List.Perm.cons a ih)

theorem insertB_pairwise (le : α → α → Bool)
    (htot : ∀ x y, le x y = true ∨ le y x = true)
    (htrans : ∀ x y z, le x y = true → le y z = true → le x z = true)
    (a : α) (l : List α) (h : l.Pairwise (fun x y => le x y = true)) :
    (insertB le a l).Pairwise (fun x y => le x y = true) := by
  induction l with
  | nil => simp [insertB]
  | cons b t ih =>
    rcases h with _ | ⟨hb, ht⟩
    by_cases hab : le a b = true
    · simp only [insertB, hab, if_true]
      refine List.Pairwise.cons ?_ (List.Pairwise.cons hb ht)
      intro c hc
      rcases List.mem_cons.mp hc with rfl | hc
      · exact hab
      · exact htrans a b c hab (hb c hc)
    · simp only [insertB, hab, if_false, Bool.false_eq_true]
      refine List.Pairwise.cons ?_ (ih ht)
      intro c hc
      have hmem : c ∈ a :: t := (insertB_perm le a t).mem_iff.mp hc
      rcases List.mem_cons.mp hmem with rfl | hmem
      · rcases htot c b with h1 | h1
        · exact absurd h1 hab
        · exact h1
      · exact hb c hmem

theorem sortB_pairwise (le : α → α → Bool)
    (htot : ∀ x y, le x y = true ∨ le y x = true)
    (htrans : ∀ x y z, le x y = true → le y z = true → le x z = true)
    (l : List α) : (sortB le l).Pairwise (fun x y => le x y = true) := by
  induction l with
  | nil => simp [sortB]
  | cons a t ih => exact insertB_pairwise le htot htrans a (sortB le t) ih

theorem insertB_stable (le : α → α → Bool) (Q : α → α → Prop)
    (htot : ∀ x y, le x y = true ∨ le y x = true)
    (htrans : ∀ x y z, le x y = true → le y z = true → le x z = true)
    (a : α) (l : List α)
    (hsorted : l.Pairwise (fun x y => le x y = true))
    (hstab : l.Pairwise (stableRel le Q))
    (hQ : ∀ b ∈ l, Q a b) :
    (insertB le a l).Pairwise (stableRel le Q) := by
  induction l with
  | nil => simp [insertB]
  | cons b t ih =>
    rcases hsorted with _ | ⟨hsb, hst⟩
    rcases hstab with _ | ⟨hvb, hvt⟩
    by_cases hab : le a b = true
    · simp only [insertB, hab, if_true]
      refine List.Pairwise.cons ?_ (List.Pairwise.cons hvb hvt)
      intro c hc
      have hac : le a c = true := by
        rcases List.mem_cons.mp hc with rfl | hmem
        · exact hab
        · exact htrans a b c hab (hsb c hmem)
      by_cases hca : le c a = true
      · exact Or.inr ⟨hac, hca, hQ c hc⟩
      · exact Or.inl ⟨hac, hca⟩
    · simp only [insertB, hab, if_false, Bool.false_eq_true]
      refine List.Pairwise.cons ?_ (ih hst hvt (fun c hc => hQ c (List.mem_cons_of_mem b hc)))
      intro c hc
      have hmem : c ∈ a :: t := (insertB_perm le a t).mem_iff.mp hc
      rcases List.mem_cons.mp hmem with rfl | hmem
      · have hba : le b c = true := by
          rcases htot c b with h1 | h1
          · exact absurd h1 hab
          · exact h1
        exact Or.inl ⟨hba, hab⟩
      · exact hvb c hmem

theorem sortB_stable (le : α → α → Bool) (Q : α → α → Prop)
    (htot : ∀ x y, le x y = true ∨ le y x = true)
    (htrans : ∀ x y z, le x y = true → le y z = true → le x z = true)
    (l : List α) (hQ : l.Pairwise Q) :
    (sortB le l).Pairwise (stableRel le Q) := by
  induction l with
  | nil => simp [sortB]
  | cons a t ih =>
    rcases hQ with _ | ⟨ha, ht⟩
    refine insertB_stable le Q htot htrans a (sortB le t)
      (sortB_pairwise le htot htrans t) (ih ht) ?_
    intro b hb
    exact ha b ((sortB_perm le t).mem_iff.mp hb)

theorem mapExcept_ok_of (f : α → Except ε β) (g : α → β) (l : List α)
    (h : ∀ a ∈ l, f a = .ok (g a)) : mapExcept f l = .ok (l.map g) := by
  induction l with
  | nil => rfl
  | cons a t ih =>
    have ha := h a (List.mem_cons_self a t)
    have ht := ih (fun b hb => h b (List.mem_cons_of_mem a hb))
    show (do
        let b ← f a
        let bs ← mapExcept f t
        Except.ok (b :: bs)) = Except.ok (g a :: List.map g t)
    rw [ha, ht]
    rfl

theorem mapExcept_error_of (f : α → Except ε β) (E : ε) (l : List α)
    (hshape : ∀ a ∈ l, f a = .error E ∨ ∃ b, f a = .ok b)
    (hex : ∃ a ∈ l, f a = .error E) :
    mapExcept f l = .error E := by
  induction l with
  | nil =>
    rcases hex with ⟨a, ha, _⟩
    exact absurd ha (List.not_mem_nil a)
  | cons a t ih =>
    rcases hshape a (List.mem_cons_self a t) with ha | ⟨b, hb⟩
    · show (do
          let b ← f a
          let bs ← mapExcept f t
          Except.ok (b :: bs)) = Except.error E
      rw [ha]
      rfl
    · rcases hex with ⟨x, hx, hxe⟩
      rcases List.mem_cons.mp hx with rfl | hxt
      · rw [hxe] at hb
        exact Except.noConfusion hb
      · have ht := ih (fun y hy => hshape y (List.mem_cons_of_mem a hy)) ⟨x, hxt, hxe⟩
        show (do
            let b ← f a
            let bs ← mapExcept f t
            Except.ok (b :: bs)) = Except.error E
        rw [hb, ht]
        rfl

theorem enumFrom_map_fst (n : Nat) (l : List α) :
    (enumFrom n l).map Prod.fst = List.range' n l.length := by
  induction l generalizing n with
  | nil => rfl
  | cons a t ih => simp [enumFrom, List.range', ih]

theorem enumFrom_map_snd (n : Nat) (l : List α) : (enumFrom n l).map Prod.snd = l := by
  induction l generalizing n with
  | nil => rfl
  | cons a t ih => simp [enumFrom, ih]

theorem enumerate1_map_fst (l : List α) :
    (enumerate1 l).map Prod.fst = List.range' 1 l.length := enumFrom_map_fst 1 l

theorem enumerate1_map_snd (l : List α) : (enumerate1 l).map Prod.snd = l :=
  enumFrom_map_snd 1 l

/-! ### Generic lemmas about `scalarOneOrNone` and filtered tables -/

theorem scalarOneOrNone_eq_ok_some {l : List α} {x : α} :
    scalarOneOrNone l = .ok (some x) ↔ l = [x] := by
  cases l with
  | nil => simp [scalarOneOrNone]
  | cons a t =>
    cases t with
    | nil =>
      constructor
      · intro h
        simp only [scalarOneOrNone] at h
        cases h
        rfl
      · intro h
        cases h
        rfl
    | cons b t2 => simp [scalarOneOrNone]

theorem scalarOneOrNone_eq_ok_none {l : List α} :
    scalarOneOrNone l = .ok none ↔ l = [] := by
  cases l with
  | nil => simp [scalarOneOrNone]
  | cons a t =>
    cases t with
    | nil => simp [scalarOneOrNone]
    | cons b t2 => simp [scalarOneOrNone]

theorem filter_map_pred_inv {f : α → α} {p : α → Bool} (hp : ∀ x, p (f x) = p x)
    (l : List α) : (l.map f).filter p = (l.filter p).map f := by
  induction l with
  | nil => rfl
  | cons a t ih =>
    by_cases h : p a = true
    · simp [List.filter, hp a, h, ih]
    · simp only [Bool.not_eq_true] at h
      simp [List.filter, hp a, h, ih]

theorem scalarOneOrNone_map (f : α → β) (l : List α) :
    scalarOneOrNone (l.map f) = (scalarOneOrNone l).map (Option.map f) := by
  cases l with
  | nil => rfl
  | cons a t =>
    cases t with
    | nil => rfl
    | cons b t2 => rfl

/-- Key read of an updated table: a field update that changes neither the filter key
nor the id leaves the id-level lookup unchanged. -/
theorem scalar_filter_map_id {f : α → α} {p : α → Bool} {idf : α → Nat}
    (hp : ∀ x, p (f x) = p x) (hid : ∀ x, idf (f x) = idf x) (l : List α) :
    (scalarOneOrNone ((l.map f).filter p)).map (Option.map idf) =
      (scalarOneOrNone (l.filter p)).map (Option.map idf) := by
  rw [filter_map_pred_inv hp, scalarOneOrNone_map]
  cases hs : scalarOneOrNone (l.filter p) with
  | error e => rfl
  | ok o =>
    cases o with
    | none => rfl
    | some x => simp [Except.map, hid x]

/-- Key read of a table with an appended non-matching row. -/
theorem scalar_filter_append_notkey {p : α → Bool} {a : α} (ha : p a = false)
    (l : List α) :
    scalarOneOrNone ((l ++ [a]).filter p) = scalarOneOrNone (l.filter p) := by
  rw [List.filter_append]
  simp [List.filter, ha]

/-- Key read of a previously empty key after appending its row. -/
theorem scalar_filter_append_key {p : α → Bool} {a : α} {l : List α}
    (hl : l.filter p = []) (ha : p a = true) :
    scalarOneOrNone ((l ++ [a]).filter p) = .ok (some a) := by
  rw [List.filter_append, hl]
  simp [List.filter, ha, scalarOneOrNone]

theorem exceptMapOption_ok_some {e : Except String (Option α)} {g : α → β} {i : β} :
    e.map (Option.map g) = .ok (some i) ↔ ∃ x, e = .ok (some x) ∧ g x = i := by
  cases e with
  | error err => simp [Except.map]
  | ok o =>
    cases o with
    | none => simp [Except.map]
    | some x => simp [Except.map]

theorem except_bind_eq_ok {e : Except ε α} {g : α → Except ε β} {b : β}
    (h : e >>= g = .ok b) : ∃ a, e = .ok a ∧ g a = .ok b := by
  cases e with
  | error err => exact absurd h (by simp [Bind.bind, Except.bind])
  | ok a =>
    refine ⟨a, rfl, ?_⟩
    simpa [Bind.bind, Except.bind] using h

/-- An id-level key lookup survives appending a row whose own key was unoccupied. -/
theorem scalar_id_append_mono {p : α → Bool} {row : α} {idf : α → Nat} {i : Nat}
    (l : List α) (hrow : p row = true → l.filter p = [])
    (h : (scalarOneOrNone (l.filter p)).map (Option.map idf) = .ok (some i)) :
    (scalarOneOrNone ((l ++ [row]).filter p)).map (Option.map idf) = .ok (some i) := by
  rcases exceptMapOption_ok_some.mp h with ⟨r, hr, hid⟩
  have hfm := scalarOneOrNone_eq_ok_some.mp hr
  by_cases hp : p row = true
  · rw [hrow hp] at hfm
    exact absurd hfm.symm (List.cons_ne_nil r [])
  · have hp' : p row = false := by revert hp; cases p row <;> simp
    rw [scalar_filter_append_notkey hp']
    exact h

/-! ### `FindEq` and `Mono` structure -/

theorem findEq_refl (db : DB) : FindEq db db :=
  ⟨fun _ => rfl, fun _ _ _ => rfl, fun _ _ => rfl, fun _ _ => rfl⟩

theorem findEq_trans {a b c : DB} (h1 : FindEq a b) (h2 : FindEq b c) : FindEq a c :=
  ⟨fun n => (h2.1 n).trans (h1.1 n),
   fun cid fn ln => (h2.2.1 cid fn ln).trans (h1.2.1 cid fn ln),
   fun cid tn => (h2.2.2.1 cid tn).trans (h1.2.2.1 cid tn),
   fun uid tn => (h2.2.2.2 uid tn).trans (h1.2.2.2 uid tn)⟩

theorem findEq_mono {a b : DB} (h : FindEq a b) : Mono a b :=
  ⟨fun n i hi => (h.1 n).trans hi,
   fun cid fn ln i hi => (h.2.1 cid fn ln).trans hi,
   fun cid tn i hi => (h.2.2.1 cid tn).trans hi,
   fun uid tn i hi => (h.2.2.2 uid tn).trans hi⟩

theorem mono_refl (db : DB) : Mono db db :=
  ⟨fun _ _ h => h, fun _ _ _ _ h => h, fun _ _ _ h => h, fun _ _ _ h => h⟩

theorem mono_trans {a b c : DB} (h1 : Mono a b) (h2 : Mono b c) : Mono a c :=
  ⟨fun n i hi => h2.1 n i (h1.1 n i hi),
   fun cid fn ln i hi => h2.2.1 cid fn ln i (h1.2.1 cid fn ln i hi),
   fun cid tn i hi => h2.2.2.1 cid tn i (h1.2.2.1 cid tn i hi),
   fun uid tn i hi => h2.2.2.2 uid tn i (h1.2.2.2 uid tn i hi)⟩

theorem satUser_mono {db db' : DB} {cid : Nat} {u : UserData}
    (hm : Mono db db') (h : satUser db cid u) : satUser db' cid u := by
  rcases h with ⟨uid, hu, ht⟩
  exact ⟨uid, hm.2.1 cid u.first_name u.last_name uid hu,
    fun t htm => (ht t htm).imp (fun i hi => hm.2.2.2 uid t.number i hi)⟩

theorem satCommand_mono {db db' : DB} {c : CommandData}
    (hm : Mono db db') (h : satCommand db c) : satCommand db' c := by
  rcases h with ⟨cid, hc, ht, hu⟩
  exact ⟨cid, hm.1 c.number cid hc,
    fun t htm => (ht t htm).imp (fun i hi => hm.2.2.1 cid t.number i hi),
    fun u hum => satUser_mono hm (hu u hum)⟩

theorem saturated_mono {db db' : DB} {parsed : List CommandData}
    (hm : Mono db db') (h : saturated db parsed) : saturated db' parsed :=
  fun c hc => satCommand_mono hm (h c hc)

/-! ### Field updates preserve every lookup -/

theorem findEq_updateCommandName (db : DB) (n : Int) (v : String) :
    FindEq db (updateCommandName db n v) := by
  refine ⟨?_, fun _ _ _ => rfl, fun _ _ => rfl, fun _ _ => rfl⟩
  intro m
  exact scalar_filter_map_id (fun x => by split <;> rfl)
    (fun x => by split <;> rfl) db.commands

theorem findEq_updateUserSheetIndex (db : DB) (cid : Nat) (fn ln : String) (si : Int) :
    FindEq db (updateUserSheetIndex db cid fn ln si) := by
  refine ⟨fun _ => rfl, ?_, fun _ _ => rfl, fun _ _ => rfl⟩
  intro cid2 fn2 ln2
  exact scalar_filter_map_id (fun x => by split <;> rfl)
    (fun x => by split <;> rfl) db.users

theorem findEq_updateCommandTask (db : DB) (cid : Nat) (t : TaskData) :
    FindEq db (updateCommandTask db cid t) := by
  refine ⟨fun _ => rfl, fun _ _ _ => rfl, ?_, fun _ _ => rfl⟩
  intro cid2 tn2
  exact scalar_filter_map_id (fun x => by split <;> rfl)
    (fun x => by split <;> rfl) db.command_tasks

theorem findEq_updateUserTask (db : DB) (uid : Nat) (t : TaskData) :
    FindEq db (updateUserTask db uid t) := by
  refine ⟨fun _ => rfl, fun _ _ _ => rfl, fun _ _ => rfl, ?_⟩
  intro uid2 tn2
  exact scalar_filter_map_id (fun x => by split <;> rfl)
    (fun x => by split <;> rfl) db.user_tasks

/-! ### Creations: monotone on lookups, and the new key resolves to the new row -/

theorem mono_createCommand {db : DB} {c : CommandData}
    (h : findCommand db c.number = .ok none) :
    Mono db (createCommand db c).2 ∧
      findCommandId (createCommand db c).2 c.number = .ok (some db.next_command_id) := by
  have hfilter : db.commands.filter (fun x => decide (x.number = c.number)) = [] :=
    scalarOneOrNone_eq_ok_none.mp h
  constructor
  · refine ⟨?_, fun _ _ _ _ hi => hi, fun _ _ _ hi => hi, fun _ _ _ hi => hi⟩
    intro m i hi
    refine scalar_id_append_mono db.commands ?_ hi
    intro hp
    have hm : c.number = m := of_decide_eq_true hp
    rw [← hm]
    exact hfilter
  · have hc : (createCommand db c).2.commands = db.commands ++ [(createCommand db c).1] := rfl
    show ((scalarOneOrNone ((createCommand db c).2.commands.filter _)).map _) = _
    rw [hc, scalar_filter_append_key hfilter (decide_eq_true rfl)]
    rfl

theorem mono_createUser {db : DB} {cid : Nat} {u : UserData}
    (h : findUser db cid u.first_name u.last_name = .ok none) :
    Mono db (createUser db cid u).2 ∧
      findUserId (createUser db cid u).2 cid u.first_name u.last_name =
        .ok (some db.next_user_id) := by
  have hfilter : db.users.filter (fun x =>
      decide (x.command_id = cid ∧ x.first_name = u.first_name ∧
        x.last_name = u.last_name)) = [] :=
    scalarOneOrNone_eq_ok_none.mp h
  constructor
  · refine ⟨fun _ _ hi => hi, ?_, fun _ _ _ hi => hi, fun _ _ _ hi => hi⟩
    intro cid2 fn2 ln2 i hi
    refine scalar_id_append_mono db.users ?_ hi
    intro hp
    have hm := of_decide_eq_true hp
    obtain ⟨h1, h2, h3⟩ := hm
    rw [← h1, ← h2, ← h3]
    exact hfilter
  · have hc : (createUser db cid u).2.users = db.users ++ [(createUser db cid u).1] := rfl
    show ((scalarOneOrNone ((createUser db cid u).2.users.filter _)).map _) = _
    rw [hc, scalar_filter_append_key hfilter (decide_eq_true ⟨rfl, rfl, rfl⟩)]
    rfl

theorem mono_createCommandTask {db : DB} {cid : Nat} {t : TaskData}
    (h : findCommandTask db cid t.number = .ok none) :
    Mono db (createCommandTask db cid t) ∧
      findCommandTaskId (createCommandTask db cid t) cid t.number =
        .ok (some db.next_command_task_id) := by
  have hfilter : db.command_tasks.filter (fun x =>
      decide (x.command_id = cid ∧ x.task_number = t.number)) = [] :=
    scalarOneOrNone_eq_ok_none.mp h
  constructor
  · refine ⟨fun _ _ hi => hi, fun _ _ _ _ hi => hi, ?_, fun _ _ _ hi => hi⟩
    intro cid2 tn2 i hi
    refine scalar_id_append_mono db.command_tasks ?_ hi
    intro hp
    have hm := of_decide_eq_true hp
    obtain ⟨h1, h2⟩ := hm
    rw [← h1, ← h2]
    exact hfilter
  · have hc : (createCommandTask db cid t).command_tasks =
        db.command_tasks ++ [⟨db.next_command_task_id, cid, t.number, t.description, t.is_completed⟩] := rfl
    show ((scalarOneOrNone ((createCommandTask db cid t).command_tasks.filter _)).map _) = _
    rw [hc, scalar_filter_append_key hfilter (decide_eq_true ⟨rfl, rfl⟩)]
    rfl

theorem mono_createUserTask {db : DB} {uid : Nat} {t : TaskData}
    (h : findUserTask db uid t.number = .ok none) :
    Mono db (createUserTask db uid t) ∧
      findUserTaskId (createUserTask db uid t) uid t.number =
        .ok (some db.next_user_task_id) := by
  have hfilter : db.user_tasks.filter (fun x =>
      decide (x.user_id = uid ∧ x.task_number = t.number)) = [] :=
    scalarOneOrNone_eq_ok_none.mp h
  constructor
  · refine ⟨fun _ _ hi => hi, fun _ _ _ _ hi => hi, fun _ _ _ hi => hi, ?_⟩
    intro uid2 tn2 i hi
    refine scalar_id_append_mono db.user_tasks ?_ hi
    intro hp
    have hm := of_decide_eq_true hp
    obtain ⟨h1, h2⟩ := hm
    rw [← h1, ← h2]
    exact hfilter
  · have hc : (createUserTask db uid t).user_tasks =
        db.user_tasks ++ [⟨db.next_user_task_id, uid, t.number, t.description, t.is_completed⟩] := rfl
    show ((scalarOneOrNone ((createUserTask db uid t).user_tasks.filter _)).map _) = _
    rw [hc, scalar_filter_append_key hfilter (decide_eq_true ⟨rfl, rfl⟩)]
    rfl

/-! ### Any successful run: lookups grow monotonically and the snapshot saturates -/

theorem processCommandTask_ok {cid : Nat} {st st' : DB × Stats} {t : TaskData}
    (h : processCommandTask cid st t = .ok st') :
    Mono st.1 st'.1 ∧ ∃ i, findCommandTaskId st'.1 cid t.number = .ok (some i) := by
  unfold processCommandTask at h
  rcases except_bind_eq_ok h with ⟨found, hfind, hrest⟩
  cases found with
  | none =>
    cases Except.ok.inj hrest
    rcases mono_createCommandTask hfind with ⟨hm, hp⟩
    exact ⟨hm, st.1.next_command_task_id, hp⟩
  | some r =>
    cases Except.ok.inj hrest
    refine ⟨findEq_mono (findEq_updateCommandTask st.1 cid t), r.id, ?_⟩
    rw [(findEq_updateCommandTask st.1 cid t).2.2.1 cid t.number]
    exact exceptMapOption_ok_some.mpr ⟨r, hfind, rfl⟩

theorem processUserTask_ok {uid : Nat} {st st' : DB × Stats} {t : TaskData}
    (h : processUserTask uid st t = .ok st') :
    Mono st.1 st'.1 ∧ ∃ i, findUserTaskId st'.1 uid t.number = .ok (some i) := by
  unfold processUserTask at h
  rcases except_bind_eq_ok h with ⟨found, hfind, hrest⟩
  cases found with
  | none =>
    cases Except.ok.inj hrest
    rcases mono_createUserTask hfind with ⟨hm, hp⟩
    exact ⟨hm, st.1.next_user_task_id, hp⟩
  | some r =>
    cases Except.ok.inj hrest
    refine ⟨findEq_mono (findEq_updateUserTask st.1 uid t), r.id, ?_⟩
    rw [(findEq_updateUserTask st.1 uid t).2.2.2 uid t.number]
    exact exceptMapOption_ok_some.mpr ⟨r, hfind, rfl⟩

theorem foldl_processCommandTask_ok {cid : Nat} {tasks : List TaskData}
    {st st' : DB × Stats}
    (h : tasks.foldlM (processCommandTask cid) st = .ok st') :
    Mono st.1 st'.1 ∧
      ∀ t ∈ tasks, ∃ i, findCommandTaskId st'.1 cid t.number = .ok (some i) := by
  induction tasks generalizing st with
  | nil =>
    simp only [List.foldlM_nil] at h
    cases Except.ok.inj h
    exact ⟨mono_refl _, by simp⟩
  | cons t ts ih =>
    rw [List.foldlM_cons] at h
    rcases except_bind_eq_ok h with ⟨st1, h1, h2⟩
    rcases processCommandTask_ok h1 with ⟨hm1, i1, hp1⟩
    rcases ih h2 with ⟨hm2, hp2⟩
    refine ⟨mono_trans hm1 hm2, ?_⟩
    intro u hu
    rcases List.mem_cons.mp hu with rfl | hu
    · exact ⟨i1, hm2.2.2.1 cid u.number i1 hp1⟩
    · exact hp2 u hu

theorem foldl_processUserTask_ok {uid : Nat} {tasks : List TaskData}
    {st st' : DB × Stats}
    (h : tasks.foldlM (processUserTask uid) st = .ok st') :
    Mono st.1 st'.1 ∧
      ∀ t ∈ tasks, ∃ i, findUserTaskId st'.1 uid t.number = .ok (some i) := by
  induction tasks generalizing st with
  | nil =>
    simp only [List.foldlM_nil] at h
    cases Except.ok.inj h
    exact ⟨mono_refl _, by simp⟩
  | cons t ts ih =>
    rw [List.foldlM_cons] at h
    rcases except_bind_eq_ok h with ⟨st1, h1, h2⟩
    rcases processUserTask_ok h1 with ⟨hm1, i1, hp1⟩
    rcases ih h2 with ⟨hm2, hp2⟩
    refine ⟨mono_trans hm1 hm2, ?_⟩
    intro u hu
    rcases List.mem_cons.mp hu with rfl | hu
    · exact ⟨i1, hm2.2.2.2 uid u.number i1 hp1⟩
    · exact hp2 u hu

theorem processUser_ok {cid : Nat} {st st' : DB × Stats} {u : UserData}
    (h : processUser cid st u = .ok st') :
    Mono st.1 st'.1 ∧ satUser st'.1 cid u := by
  unfold processUser at h
  rcases except_bind_eq_ok h with ⟨found, hfind, hrest⟩
  cases found with
  | none =>
    rcases mono_createUser hfind with ⟨hmc, hpc⟩
    rcases foldl_processUserTask_ok hrest with ⟨hm2, hp2⟩
    refine ⟨mono_trans hmc hm2, st.1.next_user_id, ?_, hp2⟩
    exact hm2.2.1 cid u.first_name u.last_name st.1.next_user_id hpc
  | some usr =>
    rcases foldl_processUserTask_ok hrest with ⟨hm2, hp2⟩
    have hequ := findEq_updateUserSheetIndex st.1 cid u.first_name u.last_name u.sheet_index
    refine ⟨mono_trans (findEq_mono hequ) hm2, usr.id, ?_, hp2⟩
    refine hm2.2.1 cid u.first_name u.last_name usr.id ?_
    rw [hequ.2.1]
    exact exceptMapOption_ok_some.mpr ⟨usr, hfind, rfl⟩

theorem foldl_processUser_ok {cid : Nat} {users : List UserData} {st st' : DB × Stats}
    (h : users.foldlM (processUser cid) st = .ok st') :
    Mono st.1 st'.1 ∧ ∀ u ∈ users, satUser st'.1 cid u := by
  induction users generalizing st with
  | nil =>
    simp only [List.foldlM_nil] at h
    cases Except.ok.inj h
    exact ⟨mono_refl _, by simp⟩
  | cons u us ih =>
    rw [List.foldlM_cons] at h
    rcases except_bind_eq_ok h with ⟨st1, h1, h2⟩
    rcases processUser_ok h1 with ⟨hm1, hs1⟩
    rcases ih h2 with ⟨hm2, hs2⟩
    refine ⟨mono_trans hm1 hm2, ?_⟩
    intro v hv
    rcases List.mem_cons.mp hv with rfl | hv
    · exact satUser_mono hm2 hs1
    · exact hs2 v hv

theorem processCommand_ok {st st' : DB × Stats} {c : CommandData}
    (h : processCommand st c = .ok st') :
    Mono st.1 st'.1 ∧ satCommand st'.1 c := by
  unfold processCommand at h
  rcases except_bind_eq_ok h with ⟨found, hfind, hrest⟩
  cases found with
  | none =>
    rcases except_bind_eq_ok hrest with ⟨cst, hcst, hrest2⟩
    cases Except.ok.inj hcst
    rcases except_bind_eq_ok hrest2 with ⟨st2, htasks, husers⟩
    rcases foldl_processCommandTask_ok htasks with ⟨hmt, hpt⟩
    rcases foldl_processUser_ok husers with ⟨hmu, hpu⟩
    rcases mono_createCommand hfind with ⟨hmc, hpc⟩
    refine ⟨mono_trans hmc (mono_trans hmt hmu), st.1.next_command_id, ?_, ?_, hpu⟩
    · exact hmu.1 c.number st.1.next_command_id
        (hmt.1 c.number st.1.next_command_id hpc)
    · intro t ht
      rcases hpt t ht with ⟨i, hi⟩
      exact ⟨i, hmu.2.2.1 st.1.next_command_id t.number i hi⟩
  | some cmd =>
    rcases except_bind_eq_ok hrest with ⟨cst, hcst, hrest2⟩
    cases Except.ok.inj hcst
    rcases except_bind_eq_ok hrest2 with ⟨st2, htasks, husers⟩
    rcases foldl_processCommandTask_ok htasks with ⟨hmt, hpt⟩
    rcases foldl_processUser_ok husers with ⟨hmu, hpu⟩
    have hequ := findEq_updateCommandName st.1 c.number c.name
    have h0 : findCommandId st.1 c.number = .ok (some cmd.id) :=
      exceptMapOption_ok_some.mpr ⟨cmd, hfind, rfl⟩
    refine ⟨mono_trans (findEq_mono hequ) (mono_trans hmt hmu), cmd.id, ?_, ?_, hpu⟩
    · refine hmu.1 c.number cmd.id (hmt.1 c.number cmd.id ?_)
      rw [hequ.1]
      exact h0
    · intro t ht
      rcases hpt t ht with ⟨i, hi⟩
      exact ⟨i, hmu.2.2.1 cmd.id t.number i hi⟩

theorem foldl_processCommand_ok {parsed : List CommandData} {st st' : DB × Stats}
    (h : parsed.foldlM processCommand st = .ok st') :
    Mono st.1 st'.1 ∧ saturated st'.1 parsed := by
  induction parsed generalizing st with
  | nil =>
    simp only [List.foldlM_nil] at h
    cases Except.ok.inj h
    exact ⟨mono_refl _, by intro c hc; cases hc⟩
  | cons c cs ih =>
    rw [List.foldlM_cons] at h
    rcases except_bind_eq_ok h with ⟨st1, h1, h2⟩
    rcases processCommand_ok h1 with ⟨hm1, hs1⟩
    rcases ih h2 with ⟨hm2, hs2⟩
    refine ⟨mono_trans hm1 hm2, ?_⟩
    intro d hd
    rcases List.mem_cons.mp hd with rfl | hd
    · exact satCommand_mono hm2 hs1
    · exact hs2 d hd

theorem import_saturated {parsed : List CommandData} {db : DB} {s1 : Stats} {db1 : DB}
    (h : import_commands_to_db parsed db = .ok (s1, db1)) : saturated db1 parsed := by
  unfold import_commands_to_db at h
  rcases except_bind_eq_ok h with ⟨final, hfold, hpure⟩
  have hfin := Except.ok.inj hpure
  have hdb : final.1 = db1 := congrArg Prod.snd hfin
  have hsat := (foldl_processCommand_ok hfold).2
  rw [hdb] at hsat
  exact hsat

/-! ### Field updates leave the score columns untouched -/

theorem scoreSkeleton_updateCommandName (db : DB) (n : Int) (v : String) :
    scoreSkeleton (updateCommandName db n v) = scoreSkeleton db := by
  unfold scoreSkeleton updateCommandName
  simp only [Prod.mk.injEq]
  refine ⟨?_, trivial⟩
  rw [List.map_map]
  refine List.map_congr_left ?_
  intro x _
  simp only [Function.comp]
  split <;> rfl

theorem scoreSkeleton_updateUserSheetIndex (db : DB) (cid : Nat) (fn ln : String)
    (si : Int) : scoreSkeleton (updateUserSheetIndex db cid fn ln si) =
      scoreSkeleton db := by
  unfold scoreSkeleton updateUserSheetIndex
  simp only [Prod.mk.injEq]
  refine ⟨trivial, ?_⟩
  rw [List.map_map]
  refine List.map_congr_left ?_
  intro x _
  simp only [Function.comp]
  split <;> rfl

theorem scoreSkeleton_updateCommandTask (db : DB) (cid : Nat) (t : TaskData) :
    scoreSkeleton (updateCommandTask db cid t) = scoreSkeleton db := rfl

theorem scoreSkeleton_updateUserTask (db : DB) (uid : Nat) (t : TaskData) :
    scoreSkeleton (updateUserTask db uid t) = scoreSkeleton db := rfl

/-! ### Runs over a saturated store only update: no creations, scores untouched -/

theorem processCommandTask_sat {cid : Nat} {st : DB × Stats} {t : TaskData} {i : Nat}
    (h : findCommandTaskId st.1 cid t.number = .ok (some i)) :
    processCommandTask cid st t = .ok (updateCommandTask st.1 cid t, st.2) := by
  rcases exceptMapOption_ok_some.mp h with ⟨r, hr, _⟩
  unfold processCommandTask
  rw [hr]
  rfl

theorem processUserTask_sat {uid : Nat} {st : DB × Stats} {t : TaskData} {i : Nat}
    (h : findUserTaskId st.1 uid t.number = .ok (some i)) :
    processUserTask uid st t = .ok (updateUserTask st.1 uid t, st.2) := by
  rcases exceptMapOption_ok_some.mp h with ⟨r, hr, _⟩
  unfold processUserTask
  rw [hr]
  rfl

theorem foldl_processCommandTask_sat {cid : Nat} {tasks : List TaskData}
    (st : DB × Stats)
    (hsat : ∀ t ∈ tasks, ∃ i, findCommandTaskId st.1 cid t.number = .ok (some i)) :
    ∃ db', tasks.foldlM (processCommandTask cid) st = .ok (db', st.2) ∧
      FindEq st.1 db' ∧ scoreSkeleton db' = scoreSkeleton st.1 := by
  induction tasks generalizing st with
  | nil => exact ⟨st.1, rfl, findEq_refl st.1, rfl⟩
  | cons t ts ih =>
    obtain ⟨i, hi⟩ := hsat t (List.mem_cons_self t ts)
    have hstep := processCommandTask_sat hi
    have hupd := findEq_updateCommandTask st.1 cid t
    have hsat2 : ∀ u ∈ ts, ∃ j,
        findCommandTaskId (updateCommandTask st.1 cid t) cid u.number = .ok (some j) := by
      intro u hu
      obtain ⟨j, hj⟩ := hsat u (List.mem_cons_of_mem t hu)
      exact ⟨j, by rw [hupd.2.2.1]; exact hj⟩
    obtain ⟨db', hfold, hfe, hsk⟩ := ih (updateCommandTask st.1 cid t, st.2) hsat2
    refine ⟨db', ?_, findEq_trans hupd hfe,
      hsk.trans (scoreSkeleton_updateCommandTask st.1 cid t)⟩
    rw [List.foldlM_cons, hstep]
    exact hfold

theorem foldl_processUserTask_sat {uid : Nat} {tasks : List TaskData}
    (st : DB × Stats)
    (hsat : ∀ t ∈ tasks, ∃ i, findUserTaskId st.1 uid t.number = .ok (some i)) :
    ∃ db', tasks.foldlM (processUserTask uid) st = .ok (db', st.2) ∧
      FindEq st.1 db' ∧ scoreSkeleton db' = scoreSkeleton st.1 := by
  induction tasks generalizing st with
  | nil => exact ⟨st.1, rfl, findEq_refl st.1, rfl⟩
  | cons t ts ih =>
    obtain ⟨i, hi⟩ := hsat t (List.mem_cons_self t ts)
    have hstep := processUserTask_sat hi
    have hupd := findEq_updateUserTask st.1 uid t
    have hsat2 : ∀ u ∈ ts, ∃ j,
        findUserTaskId (updateUserTask st.1 uid t) uid u.number = .ok (some j) := by
      intro u hu
      obtain ⟨j, hj⟩ := hsat u (List.mem_cons_of_mem t hu)
      exact ⟨j, by rw [hupd.2.2.2]; exact hj⟩
    obtain ⟨db', hfold, hfe, hsk⟩ := ih (updateUserTask st.1 uid t, st.2) hsat2
    refine ⟨db', ?_, findEq_trans hupd hfe,
      hsk.trans (scoreSkeleton_updateUserTask st.1 uid t)⟩
    rw [List.foldlM_cons, hstep]
    exact hfold

theorem processUser_sat {cid : Nat} (st : DB × Stats) {u : UserData}
    (hsat : satUser st.1 cid u) :
    ∃ db', processUser cid st u =
        .ok (db', { st.2 with users_updated := st.2.users_updated + 1 }) ∧
      FindEq st.1 db' ∧ scoreSkeleton db' = scoreSkeleton st.1 := by
  rcases hsat with ⟨uid, hu, ht⟩
  rcases exceptMapOption_ok_some.mp hu with ⟨usr, husr, hid⟩
  have hupd := findEq_updateUserSheetIndex st.1 cid u.first_name u.last_name u.sheet_index
  have hsat2 : ∀ t ∈ u.tasks, ∃ i,
      findUserTaskId (updateUserSheetIndex st.1 cid u.first_name u.last_name u.sheet_index)
        usr.id t.number = .ok (some i) := by
    intro t htm
    obtain ⟨i, hti⟩ := ht t htm
    rw [← hid] at hti
    exact ⟨i, by rw [hupd.2.2.2]; exact hti⟩
  obtain ⟨db', hfold, hfe, hsk⟩ := foldl_processUserTask_sat
    (updateUserSheetIndex st.1 cid u.first_name u.last_name u.sheet_index,
     { st.2 with users_updated := st.2.users_updated + 1 }) hsat2
  refine ⟨db', ?_, findEq_trans hupd hfe,
    hsk.trans (scoreSkeleton_updateUserSheetIndex st.1 cid u.first_name u.last_name u.sheet_index)⟩
  unfold processUser
  rw [husr]
  exact hfold

theorem foldl_processUser_sat {cid : Nat} {users : List UserData} (st : DB × Stats)
    (hsat : ∀ u ∈ users, satUser st.1 cid u) :
    ∃ db' s2, users.foldlM (processUser cid) st = .ok (db', s2) ∧
      createdCounts s2 = createdCounts st.2 ∧
      FindEq st.1 db' ∧ scoreSkeleton db' = scoreSkeleton st.1 := by
  induction users generalizing st with
  | nil => exact ⟨st.1, st.2, rfl, rfl, findEq_refl st.1, rfl⟩
  | cons u us ih =>
    obtain ⟨db1, hstep, hfe1, hsk1⟩ := processUser_sat st (hsat u (List.mem_cons_self u us))
    have hsat2 : ∀ v ∈ us, satUser db1 cid v := by
      intro v hv
      exact satUser_mono (findEq_mono hfe1) (hsat v (List.mem_cons_of_mem u hv))
    obtain ⟨db', s2, hfold, hcc, hfe2, hsk2⟩ :=
      ih (db1, { st.2 with users_updated := st.2.users_updated + 1 }) hsat2
    refine ⟨db', s2, ?_, hcc, findEq_trans hfe1 hfe2, hsk2.trans hsk1⟩
    rw [List.foldlM_cons, hstep]
    exact hfold

theorem processCommand_sat (st : DB × Stats) {c : CommandData}
    (hsat : satCommand st.1 c) :
    ∃ db' s2, processCommand st c = .ok (db', s2) ∧
      createdCounts s2 = createdCounts st.2 ∧
      FindEq st.1 db' ∧ scoreSkeleton db' = scoreSkeleton st.1 := by
  rcases hsat with ⟨cid, hc, ht, hu⟩
  rcases exceptMapOption_ok_some.mp hc with ⟨cmd, hcmd, hid⟩
  have hupd := findEq_updateCommandName st.1 c.number c.name
  have hsat2 : ∀ t ∈ c.tasks, ∃ i,
      findCommandTaskId (updateCommandName st.1 c.number c.name) cmd.id t.number =
        .ok (some i) := by
    intro t htm
    obtain ⟨i, hti⟩ := ht t htm
    rw [← hid] at hti
    exact ⟨i, by rw [hupd.2.2.1]; exact hti⟩
  obtain ⟨db1, hfold1, hfe1, hsk1⟩ := foldl_processCommandTask_sat
    (updateCommandName st.1 c.number c.name,
     { st.2 with commands_updated := st.2.commands_updated + 1 }) hsat2
  have hsat3 : ∀ v ∈ c.users, satUser db1 cmd.id v := by
    intro v hv
    have hv2 := hu v hv
    rw [← hid] at hv2
    exact satUser_mono (findEq_mono (findEq_trans hupd hfe1)) hv2
  obtain ⟨db', s2, hfold2, hcc, hfe2, hsk2⟩ := foldl_processUser_sat
    (db1, { st.2 with commands_updated := st.2.commands_updated + 1 }) hsat3
  have hred : processCommand st c =
      (c.tasks.foldlM (processCommandTask cmd.id)
        (updateCommandName st.1 c.number c.name,
         { st.2 with commands_updated := st.2.commands_updated + 1 })) >>=
        (fun st2 => c.users.foldlM (processUser cmd.id) st2) := by
    unfold processCommand
    rw [hcmd]
    rfl
  refine ⟨db', s2, ?_, ?_,
    findEq_trans hupd (findEq_trans hfe1 hfe2),
    hsk2.trans (hsk1.trans (scoreSkeleton_updateCommandName st.1 c.number c.name))⟩
  · rw [hred, hfold1]
    exact hfold2
  · exact hcc

theorem foldl_processCommand_sat {parsed : List CommandData} (st : DB × Stats)
    (hsat : saturated st.1 parsed) :
    ∃ db' s2, parsed.foldlM processCommand st = .ok (db', s2) ∧
      createdCounts s2 = createdCounts st.2 ∧
      FindEq st.1 db' ∧ scoreSkeleton db' = scoreSkeleton st.1 := by
  induction parsed generalizing st with
  | nil => exact ⟨st.1, st.2, rfl, rfl, findEq_refl st.1, rfl⟩
  | cons c cs ih =>
    obtain ⟨db1, s1, hstep, hcc1, hfe1, hsk1⟩ :=
      processCommand_sat st (hsat c (List.mem_cons_self c cs))
    have hsat2 : saturated db1 cs := by
      intro d hd
      exact satCommand_mono (findEq_mono hfe1) (hsat d (List.mem_cons_of_mem c hd))
    obtain ⟨db', s2, hfold, hcc2, hfe2, hsk2⟩ := ih (db1, s1) hsat2
    refine ⟨db', s2, ?_, hcc2.trans hcc1, findEq_trans hfe1 hfe2, hsk2.trans hsk1⟩
    rw [List.foldlM_cons, hstep]
    exact hfold

/-! ### The frame calculus for the reconciler (claim C4) -/

theorem forall₂_comp {R : α → α → Prop} (htrans : ∀ a b c, R a b → R b c → R a c) :
    ∀ {xs ys zs : List α}, List.Forall₂ R xs ys → List.Forall₂ R ys zs →
      List.Forall₂ R xs zs := by
  intro xs ys zs h1 h2
  induction h1 generalizing zs with
  | nil =>
    cases h2
    exact List.Forall₂.nil
  | cons hxy hxys ih =>
    cases h2 with
    | cons hyz hyzs => exact List.Forall₂.cons (htrans _ _ _ hxy hyz) (ih hyzs)

theorem forall₂_mem_right {R : α → β → Prop} :
    ∀ {xs : List α} {ys : List β}, List.Forall₂ R xs ys →
      ∀ y ∈ ys, ∃ x ∈ xs, R x y := by
  intro xs ys h
  induction h with
  | nil => intro y hy; cases hy
  | cons hxy hxys ih =>
    intro y hy
    rcases List.mem_cons.mp hy with rfl | hy
    · exact ⟨_, List.mem_cons_self _ _, hxy⟩
    · rcases ih y hy with ⟨x, hx, hr⟩
      exact ⟨x, List.mem_cons_of_mem _ hx, hr⟩

theorem tableFrame_refl {R : α → α → Prop} {N : α → Prop} (hR : ∀ x, R x x)
    (xs : List α) : tableFrame R N xs xs := by
  constructor
  · rw [List.take_length]
    exact List.forall₂_same.mpr (fun x _ => hR x)
  · rw [List.drop_length]
    intro y hy
    cases hy

theorem tableFrame_map {R : α → α → Prop} {N : α → Prop} (f : α → α)
    (hR : ∀ x, R x (f x)) (xs : List α) : tableFrame R N xs (xs.map f) := by
  constructor
  · have hlen : (xs.map f).take xs.length = xs.map f := by
      rw [List.take_of_length_le (by simp)]
    rw [hlen]
    rw [List.forall₂_map_right_iff]
    exact List.forall₂_same.mpr (fun x _ => hR x)
  · have hlen : (xs.map f).drop xs.length = [] := by
      rw [List.drop_eq_nil_iff_le]
      simp
    rw [hlen]
    intro y hy
    cases hy

theorem tableFrame_append {R : α → α → Prop} {N : α → Prop} (hR : ∀ x, R x x)
    {a : α} (ha : N a) (xs : List α) : tableFrame R N xs (xs ++ [a]) := by
  constructor
  · rw [List.take_left]
    exact List.forall₂_same.mpr (fun x _ => hR x)
  · rw [List.drop_left]
    intro y hy
    rcases List.mem_singleton.mp hy with rfl
    exact ha

theorem tableFrame_trans {R : α → α → Prop} {N : α → Prop}
    (htrans : ∀ a b c, R a b → R b c → R a c)
    (hN : ∀ x y, N x → R x y → N y)
    {xs ys zs : List α}
    (h1 : tableFrame R N xs ys) (h2 : tableFrame R N ys zs) :
    tableFrame R N xs zs := by
  have hm : xs.length ≤ ys.length := by
    have := h1.1.length_eq
    rw [List.length_take] at this
    omega
  have hk : ys.length ≤ zs.length := by
    have := h2.1.length_eq
    rw [List.length_take] at this
    omega
  constructor
  · have h2t := List.forall₂_take xs.length h2.1
    rw [List.take_take, min_eq_left hm] at h2t
    exact forall₂_comp htrans h1.1 h2t
  · intro z hz
    have hsplit : zs.drop xs.length =
        (zs.take ys.length).drop xs.length ++ zs.drop ys.length := by
      rw [← List.drop_append_of_le_length (by rw [List.length_take]; omega)]
      rw [List.take_append_drop]
    rw [hsplit] at hz
    rcases List.mem_append.mp hz with hz | hz
    · have h2d := List.forall₂_drop xs.length h2.1
      rcases forall₂_mem_right h2d z hz with ⟨y, hy, hr⟩
      exact hN y z (h1.2 y hy) hr
    · exact h2.2 z hz

theorem dbFrame_refl (db : DB) : dbFrame db db :=
  ⟨tableFrame_refl (fun _ => ⟨rfl, rfl, rfl⟩) _,
   tableFrame_refl (fun _ => ⟨rfl, rfl, rfl, rfl, rfl⟩) _,
   tableFrame_refl (fun _ => ⟨rfl, rfl, rfl⟩) _,
   tableFrame_refl (fun _ => ⟨rfl, rfl, rfl⟩) _⟩

theorem dbFrame_trans {a b c : DB} (h1 : dbFrame a b) (h2 : dbFrame b c) :
    dbFrame a c := by
  refine ⟨?_, ?_, ?_, ?_⟩
  · refine tableFrame_trans ?_ ?_ h1.1 h2.1
    · intro x y z hxy hyz
      exact ⟨hyz.1.trans hxy.1, hyz.2.1.trans hxy.2.1, hyz.2.2.trans hxy.2.2⟩
    · intro x y hx hxy
      rw [hxy.2.2, hx]
  · refine tableFrame_trans ?_ ?_ h1.2.1 h2.2.1
    · intro x y z hxy hyz
      exact ⟨hyz.1.trans hxy.1, hyz.2.1.trans hxy.2.1, hyz.2.2.1.trans hxy.2.2.1,
        hyz.2.2.2.1.trans hxy.2.2.2.1, hyz.2.2.2.2.trans hxy.2.2.2.2⟩
    · intro x y hx hxy
      rw [hxy.2.2.2.1, hx]
  · refine tableFrame_trans ?_ ?_ h1.2.2.1 h2.2.2.1
    · intro x y z hxy hyz
      exact ⟨hyz.1.trans hxy.1, hyz.2.1.trans hxy.2.1, hyz.2.2.trans hxy.2.2⟩
    · exact fun _ _ _ _ => trivial
  · refine tableFrame_trans ?_ ?_ h1.2.2.2 h2.2.2.2
    · intro x y z hxy hyz
      exact ⟨hyz.1.trans hxy.1, hyz.2.1.trans hxy.2.1, hyz.2.2.trans hxy.2.2⟩
    · exact fun _ _ _ _ => trivial

theorem dbFrame_updateCommandName (db : DB) (n : Int) (v : String) :
    dbFrame db (updateCommandName db n v) :=
  ⟨tableFrame_map _ (fun x => by constructor <;> [skip; constructor] <;> split <;> rfl) _,
   tableFrame_refl (fun _ => ⟨rfl, rfl, rfl, rfl, rfl⟩) _,
   tableFrame_refl (fun _ => ⟨rfl, rfl, rfl⟩) _,
   tableFrame_refl (fun _ => ⟨rfl, rfl, rfl⟩) _⟩

theorem dbFrame_updateUserSheetIndex (db : DB) (cid : Nat) (fn ln : String) (si : Int) :
    dbFrame db (updateUserSheetIndex db cid fn ln si) :=
  ⟨tableFrame_refl (fun _ => ⟨rfl, rfl, rfl⟩) _,
   tableFrame_map _ (fun x => by
     refine ⟨?_, ?_, ?_, ?_, ?_⟩ <;> split <;> rfl) _,
   tableFrame_refl (fun _ => ⟨rfl, rfl, rfl⟩) _,
   tableFrame_refl (fun _ => ⟨rfl, rfl, rfl⟩) _⟩

theorem dbFrame_updateCommandTask (db : DB) (cid : Nat) (t : TaskData) :
    dbFrame db (updateCommandTask db cid t) :=
  ⟨tableFrame_refl (fun _ => ⟨rfl, rfl, rfl⟩) _,
   tableFrame_refl (fun _ => ⟨rfl, rfl, rfl, rfl, rfl⟩) _,
   tableFrame_map _ (fun x => by
     refine ⟨?_, ?_, ?_⟩ <;> split <;> rfl) _,
   tableFrame_refl (fun _ => ⟨rfl, rfl, rfl⟩) _⟩

theorem dbFrame_updateUserTask (db : DB) (uid : Nat) (t : TaskData) :
    dbFrame db (updateUserTask db uid t) :=
  ⟨tableFrame_refl (fun _ => ⟨rfl, rfl, rfl⟩) _,
   tableFrame_refl (fun _ => ⟨rfl, rfl, rfl, rfl, rfl⟩) _,
   tableFrame_refl (fun _ => ⟨rfl, rfl, rfl⟩) _,
   tableFrame_map _ (fun x => by
     refine ⟨?_, ?_, ?_⟩ <;> split <;> rfl) _⟩

theorem dbFrame_createCommand (db : DB) (c : CommandData) :
    dbFrame db (createCommand db c).2 := by
  have hc : (createCommand db c).2.commands = db.commands ++ [(createCommand db c).1] := rfl
  refine ⟨?_, tableFrame_refl (fun _ => ⟨rfl, rfl, rfl, rfl, rfl⟩) _,
    tableFrame_refl (fun _ => ⟨rfl, rfl, rfl⟩) _,
    tableFrame_refl (fun _ => ⟨rfl, rfl, rfl⟩) _⟩
  rw [hc]
  refine tableFrame_append ?_ ?_ _
  · exact fun _ => ⟨rfl, rfl, rfl⟩
  · rfl

theorem dbFrame_createUser (db : DB) (cid : Nat) (u : UserData) :
    dbFrame db (createUser db cid u).2 := by
  have hc : (createUser db cid u).2.users = db.users ++ [(createUser db cid u).1] := rfl
  refine ⟨tableFrame_refl (fun _ => ⟨rfl, rfl, rfl⟩) _, ?_,
    tableFrame_refl (fun _ => ⟨rfl, rfl, rfl⟩) _,
    tableFrame_refl (fun _ => ⟨rfl, rfl, rfl⟩) _⟩
  rw [hc]
  refine tableFrame_append ?_ ?_ _
  · exact fun _ => ⟨rfl, rfl, rfl, rfl, rfl⟩
  · rfl

theorem dbFrame_createCommandTask (db : DB) (cid : Nat) (t : TaskData) :
    dbFrame db (createCommandTask db cid t) := by
  have hc : (createCommandTask db cid t).command_tasks = db.command_tasks ++
      [⟨db.next_command_task_id, cid, t.number, t.description, t.is_completed⟩] := rfl
  refine ⟨tableFrame_refl (fun _ => ⟨rfl, rfl, rfl⟩) _,
    tableFrame_refl (fun _ => ⟨rfl, rfl, rfl, rfl, rfl⟩) _, ?_,
    tableFrame_refl (fun _ => ⟨rfl, rfl, rfl⟩) _⟩
  rw [hc]
  refine tableFrame_append ?_ ?_ _
  · exact fun _ => ⟨rfl, rfl, rfl⟩
  · trivial

theorem dbFrame_createUserTask (db : DB) (uid : Nat) (t : TaskData) :
    dbFrame db (createUserTask db uid t) := by
  have hc : (createUserTask db uid t).user_tasks = db.user_tasks ++
      [⟨db.next_user_task_id, uid, t.number, t.description, t.is_completed⟩] := rfl
  refine ⟨tableFrame_refl (fun _ => ⟨rfl, rfl, rfl⟩) _,
    tableFrame_refl (fun _ => ⟨rfl, rfl, rfl, rfl, rfl⟩) _,
    tableFrame_refl (fun _ => ⟨rfl, rfl, rfl⟩) _, ?_⟩
  rw [hc]
  refine tableFrame_append ?_ ?_ _
  · exact fun _ => ⟨rfl, rfl, rfl⟩
  · trivial

theorem processCommandTask_frame {cid : Nat} {st st' : DB × Stats} {t : TaskData}
    (h : processCommandTask cid st t = .ok st') : dbFrame st.1 st'.1 := by
  unfold processCommandTask at h
  rcases except_bind_eq_ok h with ⟨found, hfind, hrest⟩
  cases found with
  | none =>
    cases Except.ok.inj hrest
    exact dbFrame_createCommandTask st.1 cid t
  | some r =>
    cases Except.ok.inj hrest
    exact dbFrame_updateCommandTask st.1 cid t

theorem processUserTask_frame {uid : Nat} {st st' : DB × Stats} {t : TaskData}
    (h : processUserTask uid st t = .ok st') : dbFrame st.1 st'.1 := by
  unfold processUserTask at h
  rcases except_bind_eq_ok h with ⟨found, hfind, hrest⟩
  cases found with
  | none =>
    cases Except.ok.inj hrest
    exact dbFrame_createUserTask st.1 uid t
  | some r =>
    cases Except.ok.inj hrest
    exact dbFrame_updateUserTask st.1 uid t

theorem foldl_processCommandTask_frame {cid : Nat} {tasks : List TaskData}
    {st st' : DB × Stats}
    (h : tasks.foldlM (processCommandTask cid) st = .ok st') : dbFrame st.1 st'.1 := by
  induction tasks generalizing st with
  | nil =>
    simp only [List.foldlM_nil] at h
    cases Except.ok.inj h
    exact dbFrame_refl _
  | cons t ts ih =>
    rw [List.foldlM_cons] at h
    rcases except_bind_eq_ok h with ⟨st1, h1, h2⟩
    exact dbFrame_trans (processCommandTask_frame h1) (ih h2)

theorem foldl_processUserTask_frame {uid : Nat} {tasks : List TaskData}
    {st st' : DB × Stats}
    (h : tasks.foldlM (processUserTask uid) st = .ok st') : dbFrame st.1 st'.1 := by
  induction tasks generalizing st with
  | nil =>
    simp only [List.foldlM_nil] at h
    cases Except.ok.inj h
    exact dbFrame_refl _
  | cons t ts ih =>
    rw [List.foldlM_cons] at h
    rcases except_bind_eq_ok h with ⟨st1, h1, h2⟩
    exact dbFrame_trans (processUserTask_frame h1) (ih h2)

theorem processUser_frame {cid : Nat} {st st' : DB × Stats} {u : UserData}
    (h : processUser cid st u = .ok st') : dbFrame st.1 st'.1 := by
  unfold processUser at h
  rcases except_bind_eq_ok h with ⟨found, hfind, hrest⟩
  cases found with
  | none =>
    exact dbFrame_trans (dbFrame_createUser st.1 cid u)
      (foldl_processUserTask_frame hrest)
  | some usr =>
    exact dbFrame_trans
      (dbFrame_updateUserSheetIndex st.1 cid u.first_name u.last_name u.sheet_index)
      (foldl_processUserTask_frame hrest)

theorem foldl_processUser_frame {cid : Nat} {users : List UserData}
    {st st' : DB × Stats}
    (h : users.foldlM (processUser cid) st = .ok st') : dbFrame st.1 st'.1 := by
  induction users generalizing st with
  | nil =>
    simp only [List.foldlM_nil] at h
    cases Except.ok.inj h
    exact dbFrame_refl _
  | cons u us ih =>
    rw [List.foldlM_cons] at h
    rcases except_bind_eq_ok h with ⟨st1, h1, h2⟩
    exact dbFrame_trans (processUser_frame h1) (ih h2)

theorem processCommand_frame {st st' : DB × Stats} {c : CommandData}
    (h : processCommand st c = .ok st') : dbFrame st.1 st'.1 := by
  unfold processCommand at h
  rcases except_bind_eq_ok h with ⟨found, hfind, hrest⟩
  cases found with
  | none =>
    rcases except_bind_eq_ok hrest with ⟨cst, hcst, hrest2⟩
    cases Except.ok.inj hcst
    rcases except_bind_eq_ok hrest2 with ⟨st2, htasks, husers⟩
    exact dbFrame_trans (dbFrame_createCommand st.1 c)
      (dbFrame_trans (foldl_processCommandTask_frame htasks)
        (foldl_processUser_frame husers))
  | some cmd =>
    rcases except_bind_eq_ok hrest with ⟨cst, hcst, hrest2⟩
    cases Except.ok.inj hcst
    rcases except_bind_eq_ok hrest2 with ⟨st2, htasks, husers⟩
    exact dbFrame_trans (dbFrame_updateCommandName st.1 c.number c.name)
      (dbFrame_trans (foldl_processCommandTask_frame htasks)
        (foldl_processUser_frame husers))

theorem foldl_processCommand_frame {parsed : List CommandData} {st st' : DB × Stats}
    (h : parsed.foldlM processCommand st = .ok st') : dbFrame st.1 st'.1 := by
  induction parsed generalizing st with
  | nil =>
    simp only [List.foldlM_nil] at h
    cases Except.ok.inj h
    exact dbFrame_refl _
  | cons c cs ih =>
    rw [List.foldlM_cons] at h
    rcases except_bind_eq_ok h with ⟨st1, h1, h2⟩
    exact dbFrame_trans (processCommand_frame h1) (ih h2)

/-- **C3**: the reconciler merge is idempotent: if one run of
`import_commands_to_db` on a snapshot succeeds, running it again on the identical
snapshot also succeeds, reports zero newly created rows in every `*_created`
counter, and leaves the `(id, score)` column of every team row and every member
row exactly as the first run left it. -/
theorem C3_reconciler_idempotent (parsed : List CommandData) (db : DB) (s1 : Stats)
    (db1 : DB) (h : import_commands_to_db parsed db = .ok (s1, db1)) :
    ∃ s2 db2, import_commands_to_db parsed db1 = .ok (s2, db2) ∧
      createdCounts s2 = (0, 0, 0, 0) ∧ scoreSkeleton db2 = scoreSkeleton db1 := by
  have hsat : saturated db1 parsed := import_saturated h
  obtain ⟨db2, s2, hrun, hcc, hfe, hsk⟩ := foldl_processCommand_sat (db1, stats0) hsat
  refine ⟨s2, db2, ?_, ?_, hsk⟩
  · unfold import_commands_to_db
    rw [hrun]
    rfl
  · exact hcc

/-- Witness for C3: a concrete first run (one team updated, one member, one team
task and one personal task created), whose repetition creates nothing and keeps the
scores. -/
theorem C3_reconciler_idempotent_witness :
    ∃ s2 db2, import_commands_to_db
        [⟨1, "A", [⟨1, "t", true⟩], [⟨"L", "F", 1, 0, [⟨1, "u", false⟩]⟩]⟩]
        ⟨[⟨7, 1, some "A", 5⟩], [⟨1, "F", "L", 0, 0, 7⟩], [⟨1, 7, 1, "t", true⟩],
         [⟨1, 1, 1, "u", false⟩], 8, 2, 2, 2⟩ = .ok (s2, db2) ∧
      createdCounts s2 = (0, 0, 0, 0) ∧
      scoreSkeleton db2 = scoreSkeleton
        ⟨[⟨7, 1, some "A", 5⟩], [⟨1, "F", "L", 0, 0, 7⟩], [⟨1, 7, 1, "t", true⟩],
         [⟨1, 1, 1, "u", false⟩], 8, 2, 2, 2⟩ :=
  C3_reconciler_idempotent
    [⟨1, "A", [⟨1, "t", true⟩], [⟨"L", "F", 1, 0, [⟨1, "u", false⟩]⟩]⟩]
    ⟨[⟨7, 1, none, 5⟩], [], [], [], 8, 1, 1, 1⟩
    ⟨0, 1, 1, 0, 1, 1⟩
    ⟨[⟨7, 1, some "A", 5⟩], [⟨1, "F", "L", 0, 0, 7⟩], [⟨1, 7, 1, "t", true⟩],
     [⟨1, 1, 1, "u", false⟩], 8, 2, 2, 2⟩
    (by decide)

/-- **C4**: for any snapshot and any store state, a successful reconciler run never
modifies an accumulated score: every pre-existing team row keeps its id, number and
score (only `name` may change), every pre-existing member row keeps its id, names,
score and team (only `sheet_index` may change), every pre-existing task row keeps
its id, owner and number (only description and raw completion flag may change), and
every newly appended team or member row has score 0. -/
theorem C4_reconciler_frame (parsed : List CommandData) (db : DB) (s : Stats)
    (db' : DB) (h : import_commands_to_db parsed db = .ok (s, db')) :
    dbFrame db db' := by
  unfold import_commands_to_db at h
  rcases except_bind_eq_ok h with ⟨final, hfold, hpure⟩
  have hfin := Except.ok.inj hpure
  have hdb : final.1 = db' := congrArg Prod.snd hfin
  have hfr := foldl_processCommand_frame hfold
  rw [hdb] at hfr
  exact hfr

/-- **C2** (code bug): per the claim, toggling a personal task to Completed while the
member's score thereby reaches 10 with the timestamp unset must stamp the current
time.  The handler instead raises `AttributeError` on a freshly loaded member with
score 9, because `models.User` declares no `max_reached_at` column, so the read at
`user.max_reached_at is None` finds no such attribute.  Below the maximum the
toggle behaves as claimed (second conjunct: `+1` point, no stamp). -/
theorem C2_toggle_stamp_attribute_error :
    callback_toggle_user_task false (loadUser ⟨1, "a", "b", 9, 0, 1⟩) 100 =
        .error "AttributeError" ∧
    callback_toggle_user_task false (loadUser ⟨1, "a", "b", 5, 0, 1⟩) 100 =
        .ok (true, ⟨⟨1, "a", "b", 6, 0, 1⟩, none⟩) ∧
    callback_toggle_user_task true ⟨⟨1, "a", "b", 6, 0, 1⟩, none⟩ 100 =
        .ok (false, ⟨⟨1, "a", "b", 5, 0, 1⟩, some none⟩) := by
  refine ⟨?_, ?_, ?_⟩ <;> decide

/-- **C5** counterexample: the claim says resolving a member task cell fails for
*every* slot index outside 0..11, but slot `-1` is accepted: only
`user_index >= len(USER_POSITIONS)` is checked, so Python's negative indexing wraps
`-1` to slot 11 and the resolver succeeds, returning that slot's cell. -/
theorem C5_resolver_counterexample : get_user_task_cell (-1) 1 = .ok (24, 11) := by
  decide

/-- **C5** as amended: the team resolver fails with `ValueError` for every ordinal
outside 1..10 and succeeds on 1..10 × 1..7; the member resolver fails only for
slot ≥ 12 (`ValueError`) or slot < -12 (`IndexError`) and succeeds for every slot
in -12..11 and task number in 1..10, negative slots wrapping Python-style. -/
theorem C5_resolver_amended :
    (∀ n t : Int, 1 ≤ n ∧ n ≤ 10 → 1 ≤ t ∧ t ≤ 7 →
      ∃ r c, get_command_task_cell n t = .ok (r, c)) ∧
    (∀ n t : Int, ¬(1 ≤ n ∧ n ≤ 10) → get_command_task_cell n t = .error "ValueError") ∧
    (∀ i t : Int, -12 ≤ i ∧ i ≤ 11 → 1 ≤ t ∧ t ≤ 10 →
      ∃ r c, get_user_task_cell i t = .ok (r, c)) ∧
    (∀ i t : Int, 12 ≤ i → get_user_task_cell i t = .error "ValueError") ∧
    (∀ i t : Int, i < -12 → get_user_task_cell i t = .error "IndexError") := by
  refine ⟨?_, ?_, ?_, ?_, ?_⟩
  · intro n t hn _
    obtain ⟨h1, h2⟩ := hn
    interval_cases n <;> exact ⟨_, _, rfl⟩
  · intro n t hn
    have hfind : COMMAND_POSITIONS.find? (fun e => e.1 = n) = none := by
      rw [List.find?_eq_none]
      intro x hx
      fin_cases hx <;> simp <;> omega
    have hlook : commandPositionsLookup n = none := by
      unfold commandPositionsLookup
      rw [hfind]
      rfl
    unfold get_command_task_cell
    rw [hlook]
  · intro i t hi _
    obtain ⟨h1, h2⟩ := hi
    interval_cases i <;> exact ⟨_, _, rfl⟩
  · intro i t hi
    unfold get_user_task_cell
    rw [if_pos]
    show (12 : Int) ≤ i
    omega
  · intro i t hi
    unfold get_user_task_cell
    rw [if_neg (by show ¬(12 : Int) ≤ i; omega)]
    have hget : pyListGet USER_POSITIONS i = .error "IndexError" := by
      unfold pyListGet
      rw [if_neg (by omega)]
      rw [dif_neg]
      show ¬(0 ≤ (12 : Int) + i ∧ _)
      intro hc
      omega
    rw [hget]
    rfl

/-- Witness for C5 (amended): team 1, task 1 resolves; team 0 fails; member slot -12
wraps and resolves; slot 12 and slot -13 fail. -/
theorem C5_resolver_amended_witness :
    (∃ r c, get_command_task_cell 1 1 = .ok (r, c)) ∧
    get_command_task_cell 0 1 = .error "ValueError" ∧
    (∃ r c, get_user_task_cell (-12) 1 = .ok (r, c)) ∧
    get_user_task_cell 12 1 = .error "ValueError" ∧
    get_user_task_cell (-13) 1 = .error "IndexError" :=
  ⟨C5_resolver_amended.1 1 1 (by decide) (by decide),
   C5_resolver_amended.2.1 0 1 (by decide),
   C5_resolver_amended.2.2.1 (-12) 1 (by decide) (by decide),
   C5_resolver_amended.2.2.2.1 12 1 (by decide),
   C5_resolver_amended.2.2.2.2 (-13) 1 (by decide)⟩

/-- **C6**: the writer's status text exactly inverts the parser's completion test:
the fixed "done" marker it writes for a completed task is classified as completed by
`is_completed` (case-insensitive substring check), and the empty string it writes
for a not-completed task is classified as not completed, so writing a state and
re-parsing the same cell yields that state. -/
theorem C6_writer_parser_roundtrip :
    is_completed (some (writerStatusText true)) = true ∧
    is_completed (some (writerStatusText false)) = false := by
  constructor <;> decide

/-- **C7**: parser and writer agree on grid coordinates.  For every team label
position and task number 1..7, the writer's 1-indexed status cell is exactly the
parser's 0-indexed status cell `(row + 1 + (t-1), col + 1)` shifted by one; the same
holds for every member slot and task number 1..10; the parser's status read site is
literally `(row + 1 + i, col + 1)`; and the two components' fixed position tables
are identical. -/
theorem C7_grid_contract :
    (∀ p ∈ command_positions, ∀ t ∈ ([1, 2, 3, 4, 5, 6, 7] : List Nat),
      get_command_task_cell p.2.2 (t : Int) =
        .ok (((p.2.1 + 1 + (t - 1) : Nat) : Int) + 1, ((p.1 + 1 : Nat) : Int) + 1)) ∧
    (∀ ip ∈ enumFrom 0 user_positions,
      ∀ t ∈ ([1, 2, 3, 4, 5, 6, 7, 8, 9, 10] : List Nat),
      get_user_task_cell (ip.1 : Int) (t : Int) =
        .ok (((ip.2.2 + 1 + (t - 1) : Nat) : Int) + 1, ((ip.2.1 + 1 : Nat) : Int) + 1)) ∧
    (∀ grid (col row i : Nat), (parseCommandTask grid col row i).is_completed =
      is_completed (some (cellOr grid (row + 1 + i) (col + 1) ""))) ∧
    (∀ grid (col row i : Nat), (parseUserTask grid col row i).is_completed =
      is_completed (some (cellOr grid (row + 1 + i) (col + 1) ""))) ∧
    COMMAND_POSITIONS = command_positions.map
      (fun p => (p.2.2, ((p.1 : Nat) : Int), ((p.2.1 : Nat) : Int))) ∧
    USER_POSITIONS = user_positions.map (fun p => (((p.1 : Nat) : Int), ((p.2 : Nat) : Int))) := by
  refine ⟨by decide, by decide, ?_, ?_, by decide, by decide⟩
  · intro grid col row i
    rfl
  · intro grid col row i
    rfl

/-- Witness for C7: team 1 task 1 and member slot 0 task 1 agree concretely. -/
theorem C7_grid_contract_witness :
    get_command_task_cell 1 1 = .ok (((0 + 1 + (1 - 1) : Nat) : Int) + 1, ((0 + 1 : Nat) : Int) + 1) ∧
    get_user_task_cell 0 1 = .ok (((0 + 1 + (1 - 1) : Nat) : Int) + 1, ((0 + 1 : Nat) : Int) + 1) :=
  ⟨C7_grid_contract.1 (0, 0, 1) (by decide) 1 (by decide),
   C7_grid_contract.2.1 (0, (0, 0)) (by decide) 1 (by decide)⟩

/-- **C9**: a guarded cell read past the fetched grid's bounds yields the supplied
default (the empty string at every status/description site) instead of an error,
and parsing the empty grid yields the generated defaults throughout: ten teams with
fallback names, placeholder task descriptions, nothing completed, and no members. -/
theorem C9_parser_oob :
    (∀ (grid : List (List String)) (row col : Nat) (d : String),
      grid.length ≤ row ∨ (grid.getD row []).length ≤ col →
        cellOr grid row col d = d) ∧
    (parse_commands_sheet []).map (fun c => c.name) =
      command_positions.map (fun p => toString p.2.2 ++ " команда") ∧
    (∀ c ∈ parse_commands_sheet [], ∀ t ∈ c.tasks,
      t.is_completed = false ∧ t.description ≠ "") ∧
    parse_users_sheet [] 1 = [] := by
  refine ⟨?_, by decide, by decide, by decide⟩
  intro grid row col d h
  unfold cellOr
  rw [if_neg]
  omega

/-- Witness for C9: an in-range row with a short row list falls back to the default
at an out-of-range column, and a fully out-of-range row does too. -/
theorem C9_parser_oob_witness :
    cellOr [["x"]] 5 0 "d" = "d" ∧ cellOr [["x"]] 0 3 "" = "" :=
  ⟨C9_parser_oob.1 [["x"]] 5 0 "d" (by decide),
   C9_parser_oob.1 [["x"]] 0 3 "" (by decide)⟩

theorem stringAppend_ne_empty (s t : String) (h : s ≠ "") : s ++ t ≠ "" := by
  intro hc
  apply h
  have hd : (s ++ t).data = [] := by rw [hc]
  rw [String.data_append] at hd
  rcases List.append_eq_nil.mp hd with ⟨h1, _⟩
  cases s with
  | mk data =>
    cases h1
    rfl

/-- **C10** counterexample: the claim asserts every parsed team task carries a
non-empty description, but a whitespace-only description cell is truthy yet strips
to the empty string, so the first task of team 1 on the grid `[[""], [" "]]` gets
description `""`. -/
theorem C10_parser_counterexample :
    ((parse_commands_sheet [[""], [" "]]).headD ⟨0, "", [], []⟩).tasks.headD
        ⟨0, "x", false⟩ = ⟨1, "", false⟩ := by
  decide

/-- **C10** as amended: for every grid the team parser returns exactly the teams
1..10 in order, each with tasks numbered 1..7, and a task description is empty only
when its grid cell is non-empty but strips to empty (whitespace-only); the member
parser returns only members whose label cell is non-blank, with `sheet_index` equal
to the member's slot (0..11) and tasks numbered 1..10. -/
theorem C10_parser_amended :
    (∀ grid, (parse_commands_sheet grid).map (fun c => c.number) =
      [1, 2, 3, 4, 5, 6, 7, 8, 9, 10]) ∧
    (∀ grid, ∀ c ∈ parse_commands_sheet grid,
      c.tasks.map (fun t => t.number) = [1, 2, 3, 4, 5, 6, 7]) ∧
    (∀ grid (col row i : Nat), (parseCommandTask grid col row i).description = "" →
      cellOr grid (row + 1 + i) col "" ≠ "" ∧
      pyStrip (cellOr grid (row + 1 + i) col "") = "") ∧
    (∀ grid (k : Int), ∀ u ∈ parse_users_sheet grid k,
      ∃ p ∈ enumFrom 0 user_positions,
        u.sheet_index = (p.1 : Int) ∧ p.1 ≤ 11 ∧
        cellOr grid p.2.2 p.2.1 "" ≠ "" ∧
        pyStrip (cellOr grid p.2.2 p.2.1 "") ≠ "" ∧
        u.command_number = k ∧
        u.tasks.map (fun t => t.number) = [1, 2, 3, 4, 5, 6, 7, 8, 9, 10]) := by
  refine ⟨?_, ?_, ?_, ?_⟩
  · intro grid
    rfl
  · intro grid c hc
    rcases List.mem_map.mp hc with ⟨p, hp, rfl⟩
    rfl
  · intro grid col row i hdesc
    by_cases hcell : cellOr grid (row + 1 + i) col "" = ""
    · exfalso
      have hfb : (parseCommandTask grid col row i).description =
          "Командное задание " ++ toString (i + 1) := by
        simp [parseCommandTask, hcell]
      rw [hfb] at hdesc
      exact stringAppend_ne_empty _ _ (by decide) hdesc
    · have hst : (parseCommandTask grid col row i).description =
          pyStrip (cellOr grid (row + 1 + i) col "") := by
        simp [parseCommandTask, hcell]
      rw [hst] at hdesc
      exact ⟨hcell, hdesc⟩
  · intro grid k u hu
    unfold parse_users_sheet at hu
    rcases List.mem_filterMap.mp hu with ⟨iu, hiu, hf⟩
    dsimp only at hf
    by_cases hblank : cellOr grid iu.2.2 iu.2.1 "" = "" ∨
        pyStrip (cellOr grid iu.2.2 iu.2.1 "") = ""
    · rw [if_pos hblank] at hf
      exact absurd hf (by simp)
    · rw [if_neg hblank] at hf
      push_neg at hblank
      have hrec := Option.some.inj hf
      have hbound : iu.1 ≤ 11 := by
        have hfst : iu.1 ∈ (enumFrom 0 user_positions).map Prod.fst :=
          List.mem_map_of_mem Prod.fst hiu
        rw [enumFrom_map_fst] at hfst
        simp only [user_positions, List.length_cons, List.length_nil,
          List.range', List.mem_cons, List.not_mem_nil, or_false] at hfst
        omega
      cases hrec
      exact ⟨iu, hiu, rfl, hbound, hblank.1, hblank.2, rfl, rfl⟩

/-- Witness for C10 (amended): the empty grid yields teams 1..10, and the
whitespace-only cell of the counterexample indeed strips to empty. -/
theorem C10_parser_amended_witness :
    (parse_commands_sheet []).map (fun c => c.number) =
      [1, 2, 3, 4, 5, 6, 7, 8, 9, 10] ∧
    (cellOr [[""], [" "]] 1 0 "" ≠ "" ∧ pyStrip (cellOr [[""], [" "]] 1 0 "") = "") :=
  ⟨C10_parser_amended.1 [], C10_parser_amended.2.2.1 [[""], [" "]] 0 0 0 (by decide)⟩

/-- Witness for C4: the concrete run of the C3 witness respects the frame. -/
theorem C4_reconciler_frame_witness :
    dbFrame ⟨[⟨7, 1, none, 5⟩], [], [], [], 8, 1, 1, 1⟩
      ⟨[⟨7, 1, some "A", 5⟩], [⟨1, "F", "L", 0, 0, 7⟩], [⟨1, 7, 1, "t", true⟩],
       [⟨1, 1, 1, "u", false⟩], 8, 2, 2, 2⟩ :=
  C4_reconciler_frame
    [⟨1, "A", [⟨1, "t", true⟩], [⟨"L", "F", 1, 0, [⟨1, "u", false⟩]⟩]⟩]
    ⟨[⟨7, 1, none, 5⟩], [], [], [], 8, 1, 1, 1⟩
    ⟨0, 1, 1, 0, 1, 1⟩
    ⟨[⟨7, 1, some "A", 5⟩], [⟨1, "F", "L", 0, 0, 7⟩], [⟨1, 7, 1, "t", true⟩],
     [⟨1, 1, 1, "u", false⟩], 8, 2, 2, 2⟩
    (by decide)

/-! ### Rank-assignment helpers -/

theorem mem_snd_of_mem_enumFrom {p : Nat × α} {n : Nat} {l : List α}
    (h : p ∈ enumFrom n l) : p.2 ∈ l := by
  have hm := List.mem_map_of_mem Prod.snd h
  rw [enumFrom_map_snd] at hm
  exact hm

theorem enumFrom_pairwise {R : α → α → Prop} {l : List α} (h : l.Pairwise R) :
    ∀ n, (enumFrom n l).Pairwise (fun p q => R p.2 q.2) := by
  induction h with
  | nil => intro n; exact List.Pairwise.nil
  | cons ha ht ih =>
    intro n
    exact List.Pairwise.cons
      (fun q hq => ha q.2 (mem_snd_of_mem_enumFrom hq)) (ih (n + 1))

theorem enumerate1_map_comp (f : α → β) (l : List α) :
    (enumerate1 l).map (fun p => f p.2) = l.map f := by
  have h1 : (enumerate1 l).map (fun p => f p.2) =
      ((enumerate1 l).map Prod.snd).map f := by
    rw [List.map_map]
    rfl
  rw [h1, enumerate1_map_snd]

/-- **C8**: the team leaderboard totals each team as `team.score` plus the sum of
its members' scores, sorts descending by total keeping the ascending-team-number
input order among equal totals, and attaches 1-based ranks; on the spec's example
store (team 1: 6+4, team 2: 3+9) team 2 ranks first. -/
theorem C8_leaderboard (db : DB)
    (hnodup : (db.commands.map (fun c => c.number)).Nodup) :
    ((get_leaderboard db).map Prod.fst = List.range' 1 db.commands.length) ∧
    (((get_leaderboard db).map (fun p => p.2.id)).Perm
      (db.commands.map (fun c => c.id))) ∧
    (∀ p ∈ get_leaderboard db, ∃ c ∈ db.commands, p.2 = lbEntry db c ∧
      p.2.team_score = c.score ∧
      p.2.total_score = c.score + ((commandUsers db c.id).map (fun u => u.score)).sum) ∧
    ((get_leaderboard db).Pairwise (fun a b => b.2.total_score < a.2.total_score ∨
      (b.2.total_score = a.2.total_score ∧ a.2.number < b.2.number))) ∧
    (get_leaderboard ⟨[⟨1, 1, none, 6⟩, ⟨2, 2, none, 3⟩],
        [⟨1, "a", "a", 4, 0, 1⟩, ⟨2, "b", "b", 9, 0, 2⟩], [], [], 3, 3, 1, 1⟩).map
      (fun p => (p.1, p.2.number, p.2.total_score)) = [(1, 2, 12), (2, 1, 10)] := by
  have htot1 : ∀ a b : CommandRow,
      (decide (a.number ≤ b.number)) = true ∨ (decide (b.number ≤ a.number)) = true := by
    intro a b
    rcases le_total a.number b.number with h | h
    · exact Or.inl (decide_eq_true h)
    · exact Or.inr (decide_eq_true h)
  have htr1 : ∀ a b c : CommandRow, (decide (a.number ≤ b.number)) = true →
      (decide (b.number ≤ c.number)) = true → (decide (a.number ≤ c.number)) = true := by
    intro a b c h1 h2
    exact decide_eq_true ((of_decide_eq_true h1).trans (of_decide_eq_true h2))
  have htot2 : ∀ a b : LBEntry,
      (decide (b.total_score ≤ a.total_score)) = true ∨
      (decide (a.total_score ≤ b.total_score)) = true := by
    intro a b
    rcases le_total b.total_score a.total_score with h | h
    · exact Or.inl (decide_eq_true h)
    · exact Or.inr (decide_eq_true h)
  have htr2 : ∀ a b c : LBEntry, (decide (b.total_score ≤ a.total_score)) = true →
      (decide (c.total_score ≤ b.total_score)) = true →
      (decide (c.total_score ≤ a.total_score)) = true := by
    intro a b c h1 h2
    exact decide_eq_true ((of_decide_eq_true h2).trans (of_decide_eq_true h1))
  have hgl : get_leaderboard db =
      enumerate1 (sortB (fun a b => decide (b.total_score ≤ a.total_score))
        ((sortB (fun a b => decide (a.number ≤ b.number)) db.commands).map
          (lbEntry db))) := rfl
  have hperm1 := sortB_perm (fun a b : CommandRow => decide (a.number ≤ b.number))
    db.commands
  have hperm2 := sortB_perm (fun a b : LBEntry => decide (b.total_score ≤ a.total_score))
    ((sortB (fun a b => decide (a.number ≤ b.number)) db.commands).map (lbEntry db))
  refine ⟨?_, ?_, ?_, ?_, by decide⟩
  · rw [hgl, enumerate1_map_fst]
    congr 1
    rw [hperm2.length_eq, List.length_map, hperm1.length_eq]
  · rw [hgl, enumerate1_map_comp]
    refine (hperm2.map (fun e => e.id)).trans ?_
    rw [List.map_map]
    exact hperm1.map (fun c => (lbEntry db c).id)
  · intro p hp
    rw [hgl] at hp
    have hp2 := mem_snd_of_mem_enumFrom hp
    have hp3 := hperm2.mem_iff.mp hp2
    rcases List.mem_map.mp hp3 with ⟨c, hc, hce⟩
    refine ⟨c, hperm1.mem_iff.mp hc, hce.symm, ?_, ?_⟩
    · rw [← hce]
      rfl
    · rw [← hce]
      rfl
  · rw [hgl]
    have hQ : ((sortB (fun a b => decide (a.number ≤ b.number)) db.commands).map
        (lbEntry db)).Pairwise (fun e1 e2 => e1.number < e2.number) := by
      rw [List.pairwise_map]
      have hle := sortB_pairwise _ htot1 htr1 db.commands
      have hnd : ((sortB (fun a b => decide (a.number ≤ b.number))
          db.commands).map (fun c => c.number)).Nodup :=
        ((hperm1.map (fun c => c.number)).nodup_iff).mpr hnodup
      have hne : (sortB (fun a b => decide (a.number ≤ b.number))
          db.commands).Pairwise (fun a b => a.number ≠ b.number) :=
        List.pairwise_map.mp hnd
      refine (hle.and hne).imp ?_
      intro a b hab
      exact lt_of_le_of_ne (of_decide_eq_true hab.1) hab.2
    have hstab := sortB_stable
      (fun a b : LBEntry => decide (b.total_score ≤ a.total_score))
      (fun e1 e2 => e1.number < e2.number) htot2 htr2 _ hQ
    have hS : (sortB (fun a b : LBEntry => decide (b.total_score ≤ a.total_score))
        ((sortB (fun a b => decide (a.number ≤ b.number)) db.commands).map
          (lbEntry db))).Pairwise (fun a b => b.total_score < a.total_score ∨
            (b.total_score = a.total_score ∧ a.number < b.number)) := by
      refine List.Pairwise.imp ?_ hstab
      intro a b hab
      rcases hab with ⟨h1, h2⟩ | ⟨h1, h2, h3⟩
      · left
        have hna := of_decide_eq_true h1
        have hnb : ¬ (a.total_score ≤ b.total_score) :=
          fun hx => h2 (decide_eq_true hx)
        omega
      · right
        have hna := of_decide_eq_true h1
        have hnb := of_decide_eq_true h2
        exact ⟨le_antisymm hna hnb, h3⟩
    exact enumFrom_pairwise hS 1

/-! ### The member-ranking comparator -/

theorem p3Le_total (a b : P3) : p3Le a b = true ∨ p3Le b a = true := by
  cases a with
  | inf => cases b <;> simp [p3Le]
  | fin x =>
    cases b with
    | inf => simp [p3Le]
    | fin y =>
      simp only [p3Le, decide_eq_true_eq]
      omega

theorem p3Le_trans (a b c : P3) (h1 : p3Le a b = true) (h2 : p3Le b c = true) :
    p3Le a c = true := by
  cases c with
  | inf => cases a <;> rfl
  | fin z =>
    cases b with
    | inf => exact absurd h2 (by simp [p3Le])
    | fin y =>
      cases a with
      | inf => exact absurd h1 (by simp [p3Le])
      | fin x =>
        simp only [p3Le, decide_eq_true_eq] at h1 h2 ⊢
        omega

theorem keyLe_total (k1 k2 : Int × Int × P3) :
    keyLe k1 k2 = true ∨ keyLe k2 k1 = true := by
  unfold keyLe
  simp only [Bool.or_eq_true, Bool.and_eq_true, decide_eq_true_eq]
  rcases lt_trichotomy k1.1 k2.1 with h | h | h
  · exact Or.inl (Or.inl h)
  · rcases lt_trichotomy k1.2.1 k2.2.1 with h2 | h2 | h2
    · exact Or.inl (Or.inr ⟨h, Or.inl h2⟩)
    · rcases p3Le_total k1.2.2 k2.2.2 with h3 | h3
      · exact Or.inl (Or.inr ⟨h, Or.inr ⟨h2, h3⟩⟩)
      · exact Or.inr (Or.inr ⟨h.symm, Or.inr ⟨h2.symm, h3⟩⟩)
    · exact Or.inr (Or.inr ⟨h.symm, Or.inl h2⟩)
  · exact Or.inr (Or.inl h)

theorem keyLe_trans (k1 k2 k3 : Int × Int × P3) (h1 : keyLe k1 k2 = true)
    (h2 : keyLe k2 k3 = true) : keyLe k1 k3 = true := by
  unfold keyLe at h1 h2 ⊢
  simp only [Bool.or_eq_true, Bool.and_eq_true, decide_eq_true_eq] at h1 h2 ⊢
  rcases h1 with h1 | ⟨he1, hr1⟩
  · rcases h2 with h2 | ⟨he2, hr2⟩
    · exact Or.inl (h1.trans h2)
    · exact Or.inl (he2 ▸ h1)
  · rcases h2 with h2 | ⟨he2, hr2⟩
    · exact Or.inl (he1 ▸ h2)
    · refine Or.inr ⟨he1.trans he2, ?_⟩
      rcases hr1 with hr1 | ⟨hf1, hp1⟩
      · rcases hr2 with hr2 | ⟨hf2, hp2⟩
        · exact Or.inl (hr1.trans hr2)
        · exact Or.inl (hf2 ▸ hr1)
      · rcases hr2 with hr2 | ⟨hf2, hp2⟩
        · exact Or.inl (hf1 ▸ hr2)
        · exact Or.inr ⟨hf1.trans hf2, p3Le_trans _ _ _ hp1 hp2⟩

theorem keyLe_plain (s1 s2 : Int)
    (h : keyLe (-s1, 0, P3.fin 0) (-s2, 0, P3.fin 0) = true) : s2 ≤ s1 := by
  unfold keyLe at h
  simp only [Bool.or_eq_true, Bool.and_eq_true, decide_eq_true_eq] at h
  rcases h with h | ⟨he, _⟩ <;> omega

/-- `sort_key` on a member below the maximum with a loaded parent command: the
second and third priorities are the neutral constants. -/
theorem sort_key_no_max {u : LoadedUser} {c : CommandRow}
    (hc : u.command = some c) (hscore : u.user.score ≠ MAX_PERSONAL) :
    sort_key u = .ok (-u.user.score, 0, P3.fin 0) := by
  unfold sort_key getattrCommand
  rw [hc]
  simp [Bind.bind, Except.bind, hscore]

/-- `sort_key` on a maximum-score member whose dynamic `max_reached_at` attribute is
absent (as on every freshly loaded row): the read raises `AttributeError`. -/
theorem sort_key_max (u : LoadedUser) (hm : u.max_reached_at = none)
    (hs : u.user.score = MAX_PERSONAL) :
    sort_key u = .error "AttributeError" := by
  unfold sort_key getattrCommand getattrMaxReachedAtL
  cases hc : u.command with
  | none => simp [Bind.bind, Except.bind]
  | some c => simp [Bind.bind, Except.bind, hs, hm]

/-- `sort_key` on a loaded user either raises `AttributeError` or returns a key. -/
theorem sort_key_loaded (db : DB) (r : UserRow) :
    sort_key (loadAPIUser db r) = .error "AttributeError" ∨
      ∃ k, sort_key (loadAPIUser db r) = .ok k := by
  by_cases hs : r.score = MAX_PERSONAL
  · exact Or.inl (sort_key_max (loadAPIUser db r) rfl hs)
  · cases hc : (loadAPIUser db r).command with
    | none =>
      left
      unfold sort_key getattrCommand
      rw [hc]
      simp [Bind.bind, Except.bind]
    | some c =>
      exact Or.inr ⟨_, sort_key_no_max hc hs⟩

/-- **C1** counterexample: the claimed example store — A (score 10, team total 15),
B (score 10, team total 15), C (score 10, team total 20 on a team with the *lowest*
own score) — for which the claim predicts the ranking C, A, B.  The endpoint
instead raises `AttributeError`: `sort_key` reads `user.max_reached_at` for every
maximum-score member, and `models.User` has no such column (so the claimed
timestamps t1, t2 cannot even be stored). -/
theorem C1_member_ranking_counterexample :
    get_top_users ⟨[⟨1, 1, some "T1", 5⟩, ⟨2, 2, some "T2", 5⟩, ⟨3, 3, some "T3", 2⟩],
      [⟨1, "A", "A", 10, 0, 1⟩, ⟨2, "B", "B", 10, 0, 2⟩, ⟨3, "C", "C", 10, 0, 3⟩,
       ⟨4, "D", "D", 8, 1, 3⟩], [], [], 4, 5, 1, 1⟩ 10 = .error "AttributeError" := by
  decide

/-- **C1** as amended: members below the maximum personal score are ranked by
descending personal score with the neutral constants as second and third keys and
1-based ranks (first conjunct: for any store whose members are all below 10 and
whose team relationships resolve, the endpoint succeeds, the output is a
rank-annotated, score-descending selection of the loaded users); for every store
in which any member holds the maximum score 10, and every limit, the endpoint
instead raises `AttributeError`, because `models.User` declares no
`max_reached_at` column (second conjunct). -/
theorem C1_member_ranking_amended :
    (∀ (db : DB) (limit : Int),
      (∀ u ∈ db.users, u.score ≠ MAX_PERSONAL) →
      (∀ u ∈ db.users, ∃ c ∈ db.commands, c.id = u.command_id) →
      ∃ out, get_top_users db limit = .ok out ∧
        out.map Prod.fst = List.range' 1 out.length ∧
        (out.map (fun p => p.2)).Pairwise
          (fun a b => b.user.score ≤ a.user.score) ∧
        (out.map (fun p => p.2)).Subperm (loadedUsers db)) ∧
    (∀ (db : DB) (limit : Int),
      (∃ u ∈ db.users, u.score = MAX_PERSONAL) →
      get_top_users db limit = .error "AttributeError") := by
  constructor
  · intro db limit hmax hjoin
    have hkeys : mapExcept (fun u => (sort_key u).map (fun k => (k, u)))
        (loadedUsers db) = .ok ((loadedUsers db).map
          (fun u => (((-u.user.score, 0, P3.fin 0) : Int × Int × P3), u))) := by
      refine mapExcept_ok_of _ _ _ ?_
      intro u hu
      rcases List.mem_map.mp hu with ⟨r, hr, rfl⟩
      obtain ⟨c, hcmem, hcid⟩ := hjoin r hr
      have hsome : (db.commands.find? (fun cc => cc.id = r.command_id)).isSome := by
        rw [List.find?_isSome]
        exact ⟨c, hcmem, decide_eq_true hcid⟩
      obtain ⟨y, hy⟩ := Option.isSome_iff_exists.mp hsome
      have hcmd : (loadAPIUser db r).command = some y := hy
      rw [sort_key_no_max hcmd (hmax r hr)]
      rfl
    have hred : get_top_users db limit =
        (mapExcept (fun u => (sort_key u).map (fun k => (k, u))) (loadedUsers db)) >>=
          (fun decorated => Except.ok (enumerate1 (pyTake limit
            ((sortB (fun a b => keyLe a.1 b.1) decorated).map (fun p => p.2))))) := rfl
    rw [hred, hkeys]
    refine ⟨_, rfl, ?_, ?_, ?_⟩
    · have hlen : ∀ (X : List LoadedUser), (enumerate1 X).length = X.length := by
        intro X
        have h2 := congrArg List.length (enumerate1_map_snd X)
        rwa [List.length_map] at h2
      rw [hlen, enumerate1_map_fst]
    · rw [enumerate1_map_snd]
      have hsorted := sortB_pairwise (fun a b : (Int × Int × P3) × LoadedUser =>
          keyLe a.1 b.1)
        (fun a b => keyLe_total a.1 b.1) (fun a b c => keyLe_trans a.1 b.1 c.1)
        ((loadedUsers db).map
          (fun u => (((-u.user.score, 0, P3.fin 0) : Int × Int × P3), u)))
      have hshape : ∀ p ∈ sortB (fun a b : (Int × Int × P3) × LoadedUser =>
            keyLe a.1 b.1) ((loadedUsers db).map
              (fun u => (((-u.user.score, 0, P3.fin 0) : Int × Int × P3), u))),
          p.1 = (-p.2.user.score, 0, P3.fin 0) := by
        intro p hp
        have hp2 := (sortB_perm _ _).mem_iff.mp hp
        rcases List.mem_map.mp hp2 with ⟨u, _, rfl⟩
        rfl
      have hdesc : (sortB (fun a b : (Int × Int × P3) × LoadedUser =>
            keyLe a.1 b.1) ((loadedUsers db).map
              (fun u => (((-u.user.score, 0, P3.fin 0) : Int × Int × P3), u)))).Pairwise
          (fun a b => b.2.user.score ≤ a.2.user.score) := by
        refine List.Pairwise.imp_of_mem ?_ hsorted
        intro a b ha hb hle
        have hsa := hshape a ha
        have hsb := hshape b hb
        rw [hsa, hsb] at hle
        exact keyLe_plain _ _ hle
      have hmapped : ((sortB (fun a b : (Int × Int × P3) × LoadedUser => keyLe a.1 b.1)
          ((loadedUsers db).map
            (fun u => (((-u.user.score, 0, P3.fin 0) : Int × Int × P3), u)))).map
          (fun p => p.2)).Pairwise (fun a b => b.user.score ≤ a.user.score) := by
        rw [List.pairwise_map]
        exact hdesc
      exact List.Pairwise.sublist (pyTake_sublist limit _) hmapped
    · rw [enumerate1_map_snd]
      have hsub := pyTake_sublist limit ((sortB (fun a b : (Int × Int × P3) × LoadedUser =>
        keyLe a.1 b.1) ((loadedUsers db).map
          (fun u => (((-u.user.score, 0, P3.fin 0) : Int × Int × P3), u)))).map
            (fun p => p.2))
      refine hsub.subperm.trans ?_
      have hp := ((sortB_perm (fun a b : (Int × Int × P3) × LoadedUser =>
        keyLe a.1 b.1) ((loadedUsers db).map
          (fun u => (((-u.user.score, 0, P3.fin 0) : Int × Int × P3), u)))).map
        (fun p => p.2))
      refine hp.subperm.trans ?_
      rw [List.map_map]
      have hid : ((loadedUsers db).map
          ((fun p : (Int × Int × P3) × LoadedUser => p.2) ∘
            (fun u => (((-u.user.score, 0, P3.fin 0) : Int × Int × P3), u)))) =
          loadedUsers db := List.map_id' (loadedUsers db)
      rw [hid]
  · intro db limit hex
    have herr : mapExcept (fun u => (sort_key u).map (fun k => (k, u)))
        (loadedUsers db) = .error "AttributeError" := by
      refine mapExcept_error_of _ _ _ ?_ ?_
      · intro u hu
        rcases List.mem_map.mp hu with ⟨r, hr, rfl⟩
        rcases sort_key_loaded db r with h | ⟨k, hk⟩
        · left
          show (sort_key (loadAPIUser db r)).map
            (fun k => (k, loadAPIUser db r)) = .error "AttributeError"
          rw [h]
          rfl
        · right
          refine ⟨(k, loadAPIUser db r), ?_⟩
          show (sort_key (loadAPIUser db r)).map
            (fun k => (k, loadAPIUser db r)) = .ok (k, loadAPIUser db r)
          rw [hk]
          rfl
      · rcases hex with ⟨r, hr, hscore⟩
        refine ⟨loadAPIUser db r, List.mem_map_of_mem (loadAPIUser db) hr, ?_⟩
        show (sort_key (loadAPIUser db r)).map
          (fun k => (k, loadAPIUser db r)) = .error "AttributeError"
        rw [sort_key_max (loadAPIUser db r) rfl hscore]
        rfl
    have hred : get_top_users db limit =
        (mapExcept (fun u => (sort_key u).map (fun k => (k, u))) (loadedUsers db)) >>=
          (fun decorated => Except.ok (enumerate1 (pyTake limit
            ((sortB (fun a b => keyLe a.1 b.1) decorated).map (fun p => p.2))))) := rfl
    rw [hred, herr]
    rfl

/-- Witness for C1 (amended): a two-member store below the maximum ranks fine, and
a store holding one maximum-score member makes the endpoint raise. -/
theorem C1_member_ranking_amended_witness :
    (∃ out, get_top_users ⟨[⟨1, 1, some "T1", 5⟩], [⟨1, "A", "A", 7, 0, 1⟩,
        ⟨2, "B", "B", 9, 0, 1⟩], [], [], 2, 3, 1, 1⟩ 10 = .ok out ∧
      out.map Prod.fst = List.range' 1 out.length ∧
      (out.map (fun p => p.2)).Pairwise (fun a b => b.user.score ≤ a.user.score) ∧
      (out.map (fun p => p.2)).Subperm (loadedUsers ⟨[⟨1, 1, some "T1", 5⟩],
        [⟨1, "A", "A", 7, 0, 1⟩, ⟨2, "B", "B", 9, 0, 1⟩], [], [], 2, 3, 1, 1⟩)) ∧
    get_top_users ⟨[⟨1, 1, none, 0⟩], [⟨1, "M", "M", 10, 0, 1⟩], [], [], 2, 2, 1, 1⟩
      10 = .error "AttributeError" :=
  ⟨C1_member_ranking_amended.1 ⟨[⟨1, 1, some "T1", 5⟩], [⟨1, "A", "A", 7, 0, 1⟩,
      ⟨2, "B", "B", 9, 0, 1⟩], [], [], 2, 3, 1, 1⟩ 10
    (by decide) (by decide),
   C1_member_ranking_amended.2 ⟨[⟨1, 1, none, 0⟩], [⟨1, "M", "M", 10, 0, 1⟩], [], [],
      2, 2, 1, 1⟩ 10 ⟨⟨1, "M", "M", 10, 0, 1⟩, by decide, by decide⟩⟩

/-- Witness for C8: the spec's example store has distinct team numbers; its
leaderboard carries ranks 1, 2 and sorts descending by total. -/
theorem C8_leaderboard_witness :
    (get_leaderboard ⟨[⟨1, 1, none, 6⟩, ⟨2, 2, none, 3⟩],
        [⟨1, "a", "a", 4, 0, 1⟩, ⟨2, "b", "b", 9, 0, 2⟩], [], [], 3, 3, 1, 1⟩).map
      Prod.fst = List.range' 1 2 :=
  (C8_leaderboard ⟨[⟨1, 1, none, 6⟩, ⟨2, 2, none, 3⟩],
      [⟨1, "a", "a", 4, 0, 1⟩, ⟨2, "b", "b", 9, 0, 2⟩], [], [], 3, 3, 1, 1⟩
    (by decide)).1

end ShaGame
